import Mathlib

/-!
# Verification of the goProbe capture / block-file core

A shallow embedding of the parts of the goProbe repository relevant to the
frozen claims:

* `pkg/goDB/GPFile.go` — the timestamp-indexed, compressed block file
  (`GPFile`, `BlocksUsed`, `ReadBlock`, `ReadTimedBlock`, `WriteTimedBlock`,
  and the big-endian header (de)serialization of `NewGPFile`).
* `capture.go` — the per-interface capture state machine, its packet
  processing loop with the consecutive-decode-error threshold, and the
  public entry points guarded by the `closed` flag.
* the packet-direction classifier (its implementation file is not among the
  sources; it is modelled from the specification and validated against the
  test vectors of the `GPPacket` test file that is among the sources).
* `pkg/api/goprobe/server/status.go` — the HTTP status endpoint.

Machine integers are modelled as `Int` (for Go `int64`) and `Nat` (for sizes
and bytes), with explicit `% 2 ^ 64` arithmetic where 64-bit wrap-around
matters.  Byte slices are `List Nat` whose elements are understood to lie
below 256.  Fallible Go functions returning `(T, error)` become `Except` or
`Option` values.
-/

/-! ## Big-endian int64 byte codec (GPFile.go header layout)

`WriteTimedBlock` serializes each header slot value `v : int64` as the eight
bytes `byte(v >> 56), byte(v >> 48), …, byte(v)` (GPFile.go lines 242-250);
`NewGPFile` decodes eight bytes back with
`int64(b0)<<56 | int64(b1)<<48 | … | int64(b7)` (GPFile.go lines 104-116).

Go's `byte(v >> s)` for `v : int64` is the low byte of the arithmetic shift;
for `0 ≤ s ≤ 56` this equals `((v mod 2^64) / 2^s) % 256` on the unsigned
residue, which is how `encInt64` is written.  `decInt64` keeps the source's
shift-and-or shape on `Nat` and reinterprets the resulting 64-bit pattern as
a signed value (Go's `int64` two's complement). -/

/-- Big-endian serialization of one `int64` header slot, from the `wBuf`
loop of `WriteTimedBlock` (GPFile.go lines 242-250). -/
def encInt64 (v : Int) : List Nat :=
  let n : Nat := (v % 2 ^ 64).toNat
  [n / 2 ^ 56 % 256, n / 2 ^ 48 % 256, n / 2 ^ 40 % 256, n / 2 ^ 32 % 256,
   n / 2 ^ 24 % 256, n / 2 ^ 16 % 256, n / 2 ^ 8 % 256, n % 256]

/-- Big-endian decoding of one `int64` header slot, from the header-parsing
loop of `NewGPFile` (GPFile.go lines 108-113).  The bit-or of the shifted
bytes is computed on `Nat` and the 64-bit pattern is then reinterpreted as a
signed two's-complement value, as Go's `int64` arithmetic does. -/
def decInt64 (bs : List Nat) : Int :=
  let n : Nat :=
    bs.getD 0 0 <<< 56 ||| bs.getD 1 0 <<< 48 ||| bs.getD 2 0 <<< 40 |||
    bs.getD 3 0 <<< 32 ||| bs.getD 4 0 <<< 24 ||| bs.getD 5 0 <<< 16 |||
    bs.getD 6 0 <<< 8 ||| bs.getD 7 0
  if 2 ^ 63 ≤ n then (n : Int) - 2 ^ 64 else (n : Int)

/-! ## The block-data encoder

`GPFile.go` delegates (de)compression to the `Encoder` interface whose LZ4
implementation lives in `pkg/goDB/lz4`, which is not among the sources. -/

/-- Modelled from the spec: the `Encoder` interface used by `GPFile.go`
(its LZ4 implementation in `pkg/goDB/lz4` is not among the sources).
`Compress data` is the compressed byte string appended to the file;
`Decompress s inLen outLen` models Go's `Decompress(in, out, src)` where
`s` is the remaining file contents at the current seek position,
`inLen = len(in)` is the size of the compressed-data buffer and
`outLen = len(out)` the size of the output buffer; it returns the number of
bytes read from `src` together with the output buffer. -/
structure Encoder where
  Compress : List Nat → List Nat
  Decompress : List Nat → Nat → Nat → Nat × List Nat

/-- Modelled from the spec: behaviour of the (absent) LZ4 block codec —
decompression of a compressed block consumes exactly that block and restores
the payload bit-exactly, the output buffer always has the requested size,
and compression expands the input by at most a constant factor plus slack
(LZ4's worst-case bound). -/
def Encoder.LZ4Like (enc : Encoder) : Prop :=
  (∀ payload rest : List Nat,
      enc.Decompress (enc.Compress payload ++ rest)
        (enc.Compress payload).length payload.length
        = ((enc.Compress payload).length, payload)) ∧
  (∀ s a b, ((enc.Decompress s a b).2).length = b) ∧
  (∀ d, (enc.Compress d).length ≤ 2 * d.length + 64)

/-- Pads or truncates a byte list to exactly `n` bytes (a fixed-size Go
buffer). -/
def padTo (n : Nat) (l : List Nat) : List Nat :=
  l.take n ++ List.replicate (n - l.length) 0

/-- A trivially lossless codec used to instantiate `Encoder` on concrete
inputs: compression is the identity, decompression copies `inLen` bytes
from the stream into an `outLen`-byte buffer. -/
def idCodec : Encoder where
  Compress := fun d => d
  Decompress := fun s inLen outLen => (min inLen s.length, padTo outLen (s.take inLen))

/-! ## GPFile (pkg/goDB/GPFile.go) -/

/-- Number of bytes of one header array (`BufSize`, GPFile.go line 13). -/
def BufSize : Nat := 4096

/-- Number of header slots (`NumElements = BufSize / 8`, GPFile.go line 15). -/
def NumElements : Nat := BufSize / 8

/-- The error outcomes of the GPFile operations (the distinct
`errors.New` strings of GPFile.go). -/
inductive GPError where
  | duplicateTimestamp
  | fileFull
  | emptyBlock
  | shortRead
  | timestampNotFound
deriving DecidableEq, Repr

/-- The in-memory state of a `GPFile` (GPFile.go lines 19-38): the three
parallel header arrays of 512 `int64` slots, plus the data region of the
underlying file past the 12288-byte header.  (`curFile`/`lastSeekPos` only
govern which seek syscalls happen; reads are modelled by absolute offset.) -/
structure GPFile where
  blocks : List Int
  timestamps : List Int
  lengths : List Int
  fileData : List Nat
deriving DecidableEq, Repr

/-- The `GPFile` produced by `NewGPFile` on a fresh path: an all-zero
header and no data (GPFile.go lines 77-91). -/
def emptyGPFile : GPFile :=
  { blocks := List.replicate NumElements 0
    timestamps := List.replicate NumElements 0
    lengths := List.replicate NumElements 0
    fileData := [] }

/-- Result of the slot-scanning loop at the top of `WriteTimedBlock`
(GPFile.go lines 208-224). -/
inductive SlotScan where
  | dup
  | full
  | free (newPos : Nat)
deriving DecidableEq, Repr

/-- The slot-scanning loop of `WriteTimedBlock` (GPFile.go lines 208-220):
walk the timestamp slots in order; a slot equal to the timestamp aborts with
the duplicate error, the first zero slot is the free slot, and if the loop
runs off the end the file is full. -/
def scanSlots (timestamp : Int) : List Int → SlotScan
  | [] => .full
  | t :: rest =>
    if t = timestamp then .dup
    else if t = 0 then .free 0
    else
      match scanSlots timestamp rest with
      | .free i => .free (i + 1)
      | r => r

/-- `GPFile.WriteTimedBlock` (GPFile.go lines 199-261): find the lowest free
slot (duplicate timestamps and a full header are errors), append the
compressed payload to the file, and record
`{end offset, timestamp, len(data)}` in that slot. -/
def GPFile.WriteTimedBlock (enc : Encoder) (f : GPFile) (timestamp : Int)
    (data : List Nat) : Except GPError GPFile :=
  match scanSlots timestamp f.timestamps with
  | .dup => .error .duplicateTimestamp
  | .full => .error .fileFull
  | .free newPos =>
    let nextFreeBlock : Int :=
      if newPos = 0 then (BufSize : Int) * 3 else f.blocks.getD (newPos - 1) 0
    let nWrite : Nat := (enc.Compress data).length
    .ok { blocks := f.blocks.set newPos (nextFreeBlock + nWrite)
          timestamps := f.timestamps.set newPos timestamp
          lengths := f.lengths.set newPos (data.length : Int)
          fileData := f.fileData ++ enc.Compress data }

/-- The scanning loop of `BlocksUsed` (GPFile.go lines 128-133), walking the
three header arrays in parallel and returning the first index whose triple
is all zeros. -/
def blocksUsedGo (i : Nat) : List Int → List Int → List Int → Option Nat
  | t :: ts, b :: bs, l :: ls =>
    if t = 0 ∧ b = 0 ∧ l = 0 then some i else blocksUsedGo (i + 1) ts bs ls
  | _, _, _ => none

/-- `GPFile.BlocksUsed` (GPFile.go lines 127-134).  `none` models the
`(-1, error)` return taken when no all-zero slot triple exists. -/
def GPFile.BlocksUsed (f : GPFile) : Option Nat :=
  blocksUsedGo 0 f.timestamps f.blocks f.lengths

/-- The absolute file offset at which block `block` starts: the previous
block's end offset, or the end of the header for block 0 (`seekPos`,
GPFile.go lines 142-161). -/
def GPFile.seekPos (f : GPFile) (block : Nat) : Int :=
  if block = 0 then (BufSize : Int) * 3 else f.blocks.getD (block - 1) 0

/-- The number of compressed bytes of block `block` according to the
header: the distance between the previous end offset and this block's end
offset (`readLen`, GPFile.go lines 157-161). -/
def GPFile.readLen (f : GPFile) (block : Nat) : Int :=
  f.blocks.getD block 0 - f.seekPos block

/-- `GPFile.ReadBlock` (GPFile.go lines 137-185): an all-zero slot triple is
the empty-block error; otherwise decompress from the block's start offset
into a buffer of size `lengths[block]`, reading `readLen` compressed bytes,
and fail if the number of bytes read for decompression differs from
`readLen`.  (The single `Decompress` call is referenced through its two
projections.) -/
def GPFile.ReadBlock (enc : Encoder) (f : GPFile) (block : Nat) :
    Except GPError (List Nat) :=
  if f.timestamps.getD block 0 = 0 ∧ f.blocks.getD block 0 = 0 ∧
      f.lengths.getD block 0 = 0 then
    .error .emptyBlock
  else
    if ((enc.Decompress (f.fileData.drop (f.seekPos block - (BufSize : Int) * 3).toNat)
          (f.readLen block).toNat (f.lengths.getD block 0).toNat).1 : Int) ≠
        f.readLen block then
      .error .shortRead
    else
      .ok (enc.Decompress (f.fileData.drop (f.seekPos block - (BufSize : Int) * 3).toNat)
        (f.readLen block).toNat (f.lengths.getD block 0).toNat).2

/-- `GPFile.ReadTimedBlock` (GPFile.go lines 188-196): linear scan of the
timestamp array, reading the first matching slot. -/
def GPFile.ReadTimedBlock (enc : Encoder) (f : GPFile) (timestamp : Int) :
    Except GPError (List Nat) :=
  match f.timestamps.findIdx? (· == timestamp) with
  | some i => f.ReadBlock enc i
  | none => .error .timestampNotFound

/-- Serialization of one header array into bytes, 8 bytes per slot, from
the `wBuf` loop of `WriteTimedBlock` (GPFile.go lines 242-250). -/
def serializeArr : List Int → List Nat
  | [] => []
  | v :: rest => encInt64 v ++ serializeArr rest

/-- Parsing of `n` slots from a byte buffer, 8 bytes per slot, from the
header-decoding loop of `NewGPFile` (GPFile.go lines 104-113). -/
def parseArr : Nat → List Nat → List Int
  | 0, _ => []
  | n + 1, buf => decInt64 (buf.take 8) :: parseArr n (buf.drop 8)

/-- Reopening a `GPFile`: `WriteTimedBlock` rewrites the whole 12288-byte
header from the in-memory arrays on every write (GPFile.go lines 242-257),
and `NewGPFile` reads it back as three 4096-byte buffers of 512 slots each
(GPFile.go lines 64-116).  The data region of the file is untouched. -/
def reopenGPFile (f : GPFile) : GPFile :=
  let hdr := serializeArr f.blocks ++ serializeArr f.timestamps ++
    serializeArr f.lengths
  { blocks := parseArr NumElements (hdr.take BufSize)
    timestamps := parseArr NumElements ((hdr.drop BufSize).take BufSize)
    lengths := parseArr NumElements ((hdr.drop (BufSize * 2)).take BufSize)
    fileData := f.fileData }

/-- Folding a sequence of `WriteTimedBlock` calls over a `GPFile`. -/
def writeSeq (enc : Encoder) : List (Int × List Nat) → GPFile →
    Except GPError GPFile
  | [], f => .ok f
  | (t, d) :: rest, f => do
    let f' ← f.WriteTimedBlock enc t d
    writeSeq enc rest f'

/-! ## Capture state machine and packet-processing loop (capture.go) -/

/-- `ErrorThreshold` (capture.go line 34): the maximum number of consecutive
decode errors tolerated on an interface. -/
def ErrorThreshold : Nat := 10000

/-- The activity states of a capture (capture.go lines 45-57). -/
inductive State where
  | initializing
  | capturing
  | closing
  | error
deriving DecidableEq, Repr

/-- The events the `capturing` state function can wake up on
(capture.go lines 350-362): context cancellation, a command (whose
`execute` may yield a next state), or an error from the packet-processing
task. -/
inductive CapturingEvent where
  | ctxDone
  | cmd (next : Option State)
  | captureError
deriving DecidableEq, Repr

/-- The state transition taken by `capturing` for one received event
(capture.go lines 350-362): `ctx.Done` leads to `closing`, a command's
`execute` result is followed when present, and an error coming from the
packet task leads to the error state. -/
def capturingStep : CapturingEvent → Option State
  | .ctxDone => some .closing
  | .cmd next => next
  | .captureError => some .error

/-- The consecutive-error accounting of `Capture.process`
(capture.go lines 438-494), as a pure loop over decode outcomes
(`true` = the packet decoded successfully).  A successful decode resets
`errcount` to zero; a failure increments it, and once the incremented count
exceeds `ErrorThreshold` the loop stops and a fatal error is sent on the
capture's error channel (the result `true`). -/
def processLoop (errcount : Nat) : List Bool → Bool
  | [] => false
  | decodeOk :: rest =>
    if decodeOk then processLoop 0 rest
    else if ErrorThreshold < errcount + 1 then true
    else processLoop (errcount + 1) rest

/-- Helper computing the longest run of consecutive decode failures:
`cur` is the length of the current failure run, `best` the longest
completed one. -/
def maxRunAux (cur best : Nat) : List Bool → Nat
  | [] => max best cur
  | decodeOk :: rest =>
    if decodeOk then maxRunAux 0 (max best cur) rest
    else maxRunAux (cur + 1) best rest

/-- The longest run of consecutive decode failures in a list of decode
outcomes. -/
def maxFailRun (evs : List Bool) : Nat := maxRunAux 0 0 evs

/-! ## Public methods of `Capture` guarded by the `closed` flag
(capture.go lines 533-620) -/

/-- The command words that the public methods place on `cmdChan`
(capture.go lines 106-120). -/
inductive CmdMsg where
  | status
  | errors
  | flows
  | update
  | rotate
deriving DecidableEq, Repr

/-- The slice of a `Capture`'s state the `closed`-flag claims depend on:
the `closed` flag set by the `closing` state function, whether `cmdChan`
has been closed, and the replies the FSM worker would produce. -/
structure CaptureSt where
  closed : Bool
  cmdChanClosed : Bool
  fsmState : State
  fsmPacketsLogged : Nat
deriving DecidableEq, Repr

/-- `Capture.Status` (capture.go lines 533-547): under the mutex, a closed
capture returns the zero value (modelled `none`) without touching
`cmdChan`; otherwise a status command is sent and its reply returned.  The
second component lists the commands sent on `cmdChan`. -/
def CaptureSt.Status (c : CaptureSt) : Option (State × Nat) × List CmdMsg :=
  if c.closed then (none, [])
  else (some (c.fsmState, c.fsmPacketsLogged), [.status])

/-- `Capture.Errors` (capture.go lines 550-564): same closed-flag guard as
`Status`; the reply payload is abstracted away. -/
def CaptureSt.Errors (c : CaptureSt) : List CmdMsg :=
  if c.closed then [] else [.errors]

/-- `Capture.Flows` (capture.go lines 567-581): same closed-flag guard. -/
def CaptureSt.Flows (c : CaptureSt) : List CmdMsg :=
  if c.closed then [] else [.flows]

/-- `Capture.Update` (capture.go lines 587-603): same closed-flag guard. -/
def CaptureSt.Update (c : CaptureSt) : List CmdMsg :=
  if c.closed then [] else [.update]

/-- `Capture.Rotate` (capture.go lines 612-620): sends the rotate command
unconditionally — there is no closed-flag check. -/
def CaptureSt.Rotate (_ : CaptureSt) : List CmdMsg :=
  [.rotate]

/-- The `closing` state function (capture.go lines 390-402): it closes
`cmdChan` and sets the `closed` flag. -/
def closingStep (c : CaptureSt) : CaptureSt :=
  { c with closed := true, cmdChanClosed := true, fsmState := .closing }

/-! ## Packet-direction classifier

The classifier implementation (`GPPacket.go`) is not among the sources;
only its test file is.  The classifier is modelled from the specification
(§4.C, direction-inference rules 1-7) and validated below against every
test vector of the source test file. -/

/-- IANA protocol numbers as used by the classifier. -/
def TCP : Nat := 6

/-- UDP protocol number. -/
def UDP : Nat := 17

/-- ICMP protocol number. -/
def ICMP : Nat := 1

/-- ICMPv6 protocol number. -/
def ICMPv6 : Nat := 58

/-- Direction decision of the classifier: keep the observed orientation or
swap it. -/
inductive Direction where
  | remains
  | reverts
deriving DecidableEq, Repr

/-- Modelled from the spec (§4.C rule 2, validated against
`TestPortMergeLogic`): a port is common when it is 53, 80 or 443 over TCP,
or 53 or 443 over UDP. -/
def isCommonPort (port : Nat) (proto : Nat) : Bool :=
  (proto == TCP && (port == 53 || port == 80 || port == 443)) ||
  (proto == UDP && (port == 53 || port == 443))

/-- Modelled from the spec (§4.C rule 1): the ICMP echo / router
advertisement rule applies to these protocol and type combinations. -/
def icmpRuleApplies (proto auxInfo : Nat) : Bool :=
  (proto == ICMP && (auxInfo == 0x08 || auxInfo == 0x00)) ||
  (proto == ICMPv6 && (auxInfo == 0x80 || auxInfo == 0x81 || auxInfo == 0x86))

/-- Modelled from the spec (§4.C rule 3): DHCP — UDP between ports 67 and
68. -/
def dhcpRuleApplies (proto sport dport : Nat) : Bool :=
  proto == UDP && ((sport == 68 && dport == 67) || (sport == 67 && dport == 68))

/-- Modelled from the spec (§4.C rule 4): a well-known service port is one
at most 1024 or in the common set. -/
def isWellKnown (port proto : Nat) : Bool :=
  port ≤ 1024 || isCommonPort port proto

/-- Modelled from the spec (§4.C rule 4): one port is zeroed and the other
is a well-known service port. -/
def zeroedRuleApplies (proto sport dport : Nat) : Bool :=
  (sport == 0 && isWellKnown dport proto) || (dport == 0 && isWellKnown sport proto)

/-- Modelled from the spec (§4.C rule 5): ports below 1024 are privileged;
the rule applies when exactly one side is privileged. -/
def privRuleApplies (sport dport : Nat) : Bool :=
  xor (sport < 1024) (dport < 1024)

/-- Modelled from the spec (§4.C rule 2): exactly one side's port is
common. -/
def commonRuleApplies (proto sport dport : Nat) : Bool :=
  xor (isCommonPort sport proto) (isCommonPort dport proto)

/-- Modelled from the spec (§4.C, rules 1-7 in order): classify a packet's
direction from protocol, ports and ICMP type, also returning whether the
call is confident (`directionConfidenceHigh`).  Rules 1-5 are confident;
rules 6 (lower port is the server) and 7 (tie) are not. -/
def ClassifyPacketDirection (proto sport dport auxInfo : Nat) :
    Direction × Bool :=
  if icmpRuleApplies proto auxInfo then
    (if (proto == ICMP && auxInfo == 0x00) || (proto == ICMPv6 && auxInfo == 0x81)
     then .reverts else .remains, true)
  else if commonRuleApplies proto sport dport then
    (if isCommonPort dport proto then .remains else .reverts, true)
  else if dhcpRuleApplies proto sport dport then
    (if sport == 67 && dport == 68 then .reverts else .remains, true)
  else if zeroedRuleApplies proto sport dport then
    (if sport == 0 then .remains else .reverts, true)
  else if privRuleApplies sport dport then
    (if dport < 1024 then .remains else .reverts, true)
  else if dport < sport then (.remains, false)
  else if sport < dport then (.reverts, false)
  else (.remains, false)

/-! ## HTTP status endpoint (pkg/api/goprobe/server/status.go) -/

/-- `getStatus` (status.go lines 10-30): the response starts with status
code 200; if the statuses map obtained from the capture manager is empty
the code becomes 204.  The function returns the HTTP status code and the
statuses payload it responds with. -/
def getStatus (statuses : List (String × Nat)) : Nat × List (String × Nat) :=
  let code := 200
  let code := if statuses.length = 0 then 204 else code
  (code, statuses)

/-! ## Round-trip lemmas for the int64 byte codec -/

/-- Bit-or of values with disjoint bit ranges is addition. -/
theorem or_add_of_dvd {x a : Nat} (k : Nat) (hd : 2 ^ k ∣ x) (ha : a < 2 ^ k) :
    x ||| a = x + a := by
  obtain ⟨b, rfl⟩ := hd
  apply Nat.eq_of_testBit_eq
  intro j
  rw [Nat.testBit_lor, Nat.testBit_mul_pow_two_add b ha j]
  by_cases hj : j < k
  · simp [Nat.testBit_mul_pow_two, Nat.not_le_of_lt hj, hj]
  · have haj : a < 2 ^ j :=
      lt_of_lt_of_le ha (Nat.pow_le_pow_right (by norm_num) (Nat.le_of_not_lt hj))
    simp [Nat.testBit_mul_pow_two, Nat.le_of_not_lt hj, hj,
      Nat.testBit_eq_false_of_lt haj]

theorem lorChain_eq_sum (b0 b1 b2 b3 b4 b5 b6 b7 : Nat) (hb1 : b1 < 256)
    (hb2 : b2 < 256) (hb3 : b3 < 256) (hb4 : b4 < 256) (hb5 : b5 < 256)
    (hb6 : b6 < 256) (hb7 : b7 < 256) :
    b0 <<< 56 ||| b1 <<< 48 ||| b2 <<< 40 ||| b3 <<< 32 ||| b4 <<< 24 |||
      b5 <<< 16 ||| b6 <<< 8 ||| b7
    = b0 * 2 ^ 56 + b1 * 2 ^ 48 + b2 * 2 ^ 40 + b3 * 2 ^ 32 + b4 * 2 ^ 24 +
      b5 * 2 ^ 16 + b6 * 2 ^ 8 + b7 := by
  have hbnd : ∀ m : Nat, m < 256 → ∀ s t : Nat, 256 * 2 ^ s = 2 ^ t →
      m * 2 ^ s < 2 ^ t := by
    intro m hm s t hst
    calc m * 2 ^ s < 256 * 2 ^ s := by
          exact mul_lt_mul_of_pos_right hm (by positivity)
      _ = 2 ^ t := hst
  simp only [Nat.shiftLeft_eq]
  have d1 : (2 : Nat) ^ 56 ∣ b0 * 2 ^ 56 := ⟨b0, by ring⟩
  rw [or_add_of_dvd 56 d1 (hbnd b1 hb1 48 56 (by norm_num))]
  have d2 : (2 : Nat) ^ 48 ∣ b0 * 2 ^ 56 + b1 * 2 ^ 48 :=
    ⟨b0 * 2 ^ 8 + b1, by ring⟩
  rw [or_add_of_dvd 48 d2 (hbnd b2 hb2 40 48 (by norm_num))]
  have d3 : (2 : Nat) ^ 40 ∣ b0 * 2 ^ 56 + b1 * 2 ^ 48 + b2 * 2 ^ 40 :=
    ⟨b0 * 2 ^ 16 + b1 * 2 ^ 8 + b2, by ring⟩
  rw [or_add_of_dvd 40 d3 (hbnd b3 hb3 32 40 (by norm_num))]
  have d4 : (2 : Nat) ^ 32 ∣ b0 * 2 ^ 56 + b1 * 2 ^ 48 + b2 * 2 ^ 40 + b3 * 2 ^ 32 :=
    ⟨b0 * 2 ^ 24 + b1 * 2 ^ 16 + b2 * 2 ^ 8 + b3, by ring⟩
  rw [or_add_of_dvd 32 d4 (hbnd b4 hb4 24 32 (by norm_num))]
  have d5 : (2 : Nat) ^ 24 ∣ b0 * 2 ^ 56 + b1 * 2 ^ 48 + b2 * 2 ^ 40 + b3 * 2 ^ 32 +
      b4 * 2 ^ 24 :=
    ⟨b0 * 2 ^ 32 + b1 * 2 ^ 24 + b2 * 2 ^ 16 + b3 * 2 ^ 8 + b4, by ring⟩
  rw [or_add_of_dvd 24 d5 (hbnd b5 hb5 16 24 (by norm_num))]
  have d6 : (2 : Nat) ^ 16 ∣ b0 * 2 ^ 56 + b1 * 2 ^ 48 + b2 * 2 ^ 40 + b3 * 2 ^ 32 +
      b4 * 2 ^ 24 + b5 * 2 ^ 16 :=
    ⟨b0 * 2 ^ 40 + b1 * 2 ^ 32 + b2 * 2 ^ 24 + b3 * 2 ^ 16 + b4 * 2 ^ 8 +
      b5, by ring⟩
  rw [or_add_of_dvd 16 d6 (hbnd b6 hb6 8 16 (by norm_num))]
  have d7 : (2 : Nat) ^ 8 ∣ b0 * 2 ^ 56 + b1 * 2 ^ 48 + b2 * 2 ^ 40 + b3 * 2 ^ 32 +
      b4 * 2 ^ 24 + b5 * 2 ^ 16 + b6 * 2 ^ 8 :=
    ⟨b0 * 2 ^ 48 + b1 * 2 ^ 40 + b2 * 2 ^ 32 + b3 * 2 ^ 24 + b4 * 2 ^ 16 +
      b5 * 2 ^ 8 + b6, by ring⟩
  rw [or_add_of_dvd 8 d7 (by exact_mod_cast hb7)]

theorem decInt64_encInt64 (v : Int) (h1 : -(2 ^ 63) ≤ v) (h2 : v < 2 ^ 63) :
    decInt64 (encInt64 v) = v := by
  unfold encInt64 decInt64
  have hn0 : (0 : Int) ≤ v % 2 ^ 64 := Int.emod_nonneg v (by norm_num)
  have hn1 : v % 2 ^ 64 < 2 ^ 64 := Int.emod_lt_of_pos v (by norm_num)
  set n : Nat := (v % 2 ^ 64).toNat with hn
  have hcast : (n : Int) = v % 2 ^ 64 := Int.toNat_of_nonneg hn0
  have hlt : n < 2 ^ 64 := by omega
  simp only [List.getD_cons_zero, List.getD_cons_succ]
  rw [lorChain_eq_sum _ _ _ _ _ _ _ _ (Nat.mod_lt _ (by norm_num))
    (Nat.mod_lt _ (by norm_num)) (Nat.mod_lt _ (by norm_num))
    (Nat.mod_lt _ (by norm_num)) (Nat.mod_lt _ (by norm_num))
    (Nat.mod_lt _ (by norm_num)) (Nat.mod_lt _ (by norm_num))]
  have hsum : n / 2 ^ 56 % 256 * 2 ^ 56 + n / 2 ^ 48 % 256 * 2 ^ 48 +
      n / 2 ^ 40 % 256 * 2 ^ 40 + n / 2 ^ 32 % 256 * 2 ^ 32 +
      n / 2 ^ 24 % 256 * 2 ^ 24 + n / 2 ^ 16 % 256 * 2 ^ 16 +
      n / 2 ^ 8 % 256 * 2 ^ 8 + n % 256 = n := by omega
  rw [hsum]
  have hmod : v % 2 ^ 64 = v - 2 ^ 64 * (v / 2 ^ 64) := Int.emod_def v (2 ^ 64)
  by_cases hc : 2 ^ 63 ≤ n
  · rw [if_pos hc]; omega
  · rw [if_neg hc]; omega

theorem encInt64_decInt64 (b0 b1 b2 b3 b4 b5 b6 b7 : Nat)
    (hb0 : b0 < 256) (hb1 : b1 < 256) (hb2 : b2 < 256) (hb3 : b3 < 256)
    (hb4 : b4 < 256) (hb5 : b5 < 256) (hb6 : b6 < 256) (hb7 : b7 < 256) :
    encInt64 (decInt64 [b0, b1, b2, b3, b4, b5, b6, b7]) =
      [b0, b1, b2, b3, b4, b5, b6, b7] := by
  unfold decInt64 encInt64
  simp only [List.getD_cons_zero, List.getD_cons_succ]
  rw [lorChain_eq_sum b0 b1 b2 b3 b4 b5 b6 b7 hb1 hb2 hb3 hb4 hb5 hb6 hb7]
  set N : Nat := b0 * 2 ^ 56 + b1 * 2 ^ 48 + b2 * 2 ^ 40 + b3 * 2 ^ 32 +
    b4 * 2 ^ 24 + b5 * 2 ^ 16 + b6 * 2 ^ 8 + b7 with hN
  have hNlt : N < 2 ^ 64 := by omega
  by_cases hc : 2 ^ 63 ≤ N
  · rw [if_pos hc]
    have he : ((N : Int) - 2 ^ 64) % 2 ^ 64 = (N : Int) := by omega
    rw [he, Int.toNat_natCast]
    simp only [List.cons.injEq, and_true]
    omega
  · rw [if_neg hc]
    have he : ((N : Int)) % 2 ^ 64 = (N : Int) := by omega
    rw [he, Int.toNat_natCast]
    simp only [List.cons.injEq, and_true]
    omega

/-- One serialized slot occupies eight bytes. -/
theorem encInt64_length (v : Int) : (encInt64 v).length = 8 := rfl

/-- A serialized header array occupies eight bytes per slot. -/
theorem serializeArr_length (a : List Int) :
    (serializeArr a).length = 8 * a.length := by
  induction a with
  | nil => rfl
  | cons v rest ih =>
    show (encInt64 v ++ serializeArr rest).length = 8 * (rest.length + 1)
    rw [List.length_append, encInt64_length, ih]
    ring

/-- All entries of a header array are within the `int64` range. -/
def Int64Range (a : List Int) : Prop :=
  ∀ v ∈ a, -(2 ^ 63) ≤ v ∧ v < 2 ^ 63

/-- Parsing a serialized header array restores it slot by slot. -/
theorem parseArr_serializeArr (a : List Int) (n : Nat) (h : a.length = n)
    (hr : Int64Range a) : parseArr n (serializeArr a) = a := by
  induction a generalizing n with
  | nil => subst h; rfl
  | cons v rest ih =>
    subst h
    show parseArr (rest.length + 1) (encInt64 v ++ serializeArr rest) = v :: rest
    unfold parseArr
    have h8 : (8 : Nat) = (encInt64 v).length := rfl
    rw [h8, List.take_left, List.drop_left]
    have hv := hr v (List.mem_cons_self v rest)
    rw [decInt64_encInt64 v hv.1 hv.2,
      ih rest.length rfl (fun w hw => hr w (List.mem_cons_of_mem v hw))]

/-- Reopening a `GPFile` whose header arrays have the fixed 512 slots of
in-range values reproduces the in-memory arrays exactly. -/
theorem reopenGPFile_eq (f : GPFile)
    (hbl : f.blocks.length = NumElements)
    (htl : f.timestamps.length = NumElements)
    (hll : f.lengths.length = NumElements)
    (hbr : Int64Range f.blocks) (htr : Int64Range f.timestamps)
    (hlr : Int64Range f.lengths) : reopenGPFile f = f := by
  simp only [reopenGPFile]
  have hsb : (serializeArr f.blocks).length = BufSize := by
    rw [serializeArr_length, hbl]; rfl
  have hst : (serializeArr f.timestamps).length = BufSize := by
    rw [serializeArr_length, htl]; rfl
  have hsl : (serializeArr f.lengths).length = BufSize := by
    rw [serializeArr_length, hll]; rfl
  have e1 : (serializeArr f.blocks ++ serializeArr f.timestamps ++
      serializeArr f.lengths).take BufSize = serializeArr f.blocks := by
    rw [List.append_assoc, ← hsb, List.take_left]
  have e2 : (serializeArr f.blocks ++ serializeArr f.timestamps ++
      serializeArr f.lengths).drop BufSize =
      serializeArr f.timestamps ++ serializeArr f.lengths := by
    rw [List.append_assoc, ← hsb, List.drop_left]
  have e3 : (serializeArr f.blocks ++ serializeArr f.timestamps ++
      serializeArr f.lengths).drop (BufSize * 2) =
      serializeArr f.lengths := by
    have : BufSize * 2 = BufSize + BufSize := by ring
    rw [this, ← List.drop_drop, e2, ← hst, List.drop_left]
  have e4 : (serializeArr f.timestamps ++ serializeArr f.lengths).take BufSize =
      serializeArr f.timestamps := by
    rw [← hst, List.take_left]
  have e5 : (serializeArr f.lengths).take BufSize = serializeArr f.lengths :=
    List.take_of_length_le (le_of_eq hsl)
  rw [e1, e2, e3, e4, e5]
  rw [parseArr_serializeArr f.blocks NumElements hbl hbr,
    parseArr_serializeArr f.timestamps NumElements htl htr,
    parseArr_serializeArr f.lengths NumElements hll hlr]

/-- C10: the big-endian byte-shift encoding used by `WriteTimedBlock` to
serialize the header and the shift-or decoding loop of `NewGPFile` are
mutual inverses on int64 values and on 8-byte strings; consequently,
reopening a file written by `WriteTimedBlock` reproduces the in-memory
`blocks`, `timestamps` and `lengths` arrays exactly. -/
theorem c10_header_codec_roundtrip :
    (∀ v : Int, -(2 ^ 63) ≤ v → v < 2 ^ 63 → decInt64 (encInt64 v) = v) ∧
    (∀ b0 b1 b2 b3 b4 b5 b6 b7 : Nat, b0 < 256 → b1 < 256 → b2 < 256 →
      b3 < 256 → b4 < 256 → b5 < 256 → b6 < 256 → b7 < 256 →
      encInt64 (decInt64 [b0, b1, b2, b3, b4, b5, b6, b7]) =
        [b0, b1, b2, b3, b4, b5, b6, b7]) ∧
    (∀ f : GPFile, f.blocks.length = NumElements →
      f.timestamps.length = NumElements → f.lengths.length = NumElements →
      Int64Range f.blocks → Int64Range f.timestamps → Int64Range f.lengths →
      reopenGPFile f = f) :=
  ⟨decInt64_encInt64, encInt64_decInt64, reopenGPFile_eq⟩

/-- C10 witness: the round-trip at the concrete value `-12345` and at the
concrete byte string `[255, 0, 1, 2, 3, 4, 5, 6]`. -/
theorem c10_header_codec_roundtrip_witness :
    (-(2 ^ 63) ≤ (-12345 : Int) ∧ decInt64 (encInt64 (-12345)) = -12345) ∧
    encInt64 (decInt64 [255, 0, 1, 2, 3, 4, 5, 6]) = [255, 0, 1, 2, 3, 4, 5, 6] :=
  ⟨⟨by norm_num, c10_header_codec_roundtrip.1 (-12345) (by norm_num) (by norm_num)⟩,
    c10_header_codec_roundtrip.2.1 255 0 1 2 3 4 5 6 (by norm_num) (by norm_num)
      (by norm_num) (by norm_num) (by norm_num) (by norm_num) (by norm_num)
      (by norm_num)⟩

/-! ## Claims C6-C9 -/

/-- The modelled classifier agrees with every test vector of the source
test file (`testCases`, GPPacket test file lines 45-72), which pins down
the direction for all rule branches exercised by the repository's tests. -/
theorem classifier_matches_source_test_vectors :
    ClassifyPacketDirection ICMPv6 0 0 0x80 = (.remains, true) ∧
    ClassifyPacketDirection ICMPv6 0 0 0x81 = (.reverts, true) ∧
    ClassifyPacketDirection ICMPv6 0 0 0x86 = (.remains, true) ∧
    ClassifyPacketDirection ICMP 0 0 0x08 = (.remains, true) ∧
    ClassifyPacketDirection ICMP 0 0 0x00 = (.reverts, true) ∧
    ClassifyPacketDirection TCP 37485 17500 0 = (.remains, false) ∧
    ClassifyPacketDirection TCP 17500 34000 0 = (.reverts, false) ∧
    ClassifyPacketDirection UDP 33561 444 0 = (.remains, true) ∧
    ClassifyPacketDirection UDP 444 33561 0 = (.reverts, true) ∧
    ClassifyPacketDirection UDP 33561 33560 0 = (.remains, false) ∧
    ClassifyPacketDirection UDP 33560 33561 0 = (.reverts, false) ∧
    ClassifyPacketDirection UDP 445 444 0 = (.remains, false) ∧
    ClassifyPacketDirection UDP 444 445 0 = (.reverts, false) ∧
    ClassifyPacketDirection UDP 33561 33561 0 = (.remains, false) ∧
    ClassifyPacketDirection UDP 444 444 0 = (.remains, false) ∧
    ClassifyPacketDirection UDP 68 67 0 = (.remains, true) ∧
    ClassifyPacketDirection UDP 67 68 0 = (.reverts, true) ∧
    ClassifyPacketDirection UDP 0 53 0 = (.remains, true) ∧
    ClassifyPacketDirection TCP 0 53 0 = (.remains, true) ∧
    ClassifyPacketDirection TCP 0 80 0 = (.remains, true) ∧
    ClassifyPacketDirection TCP 0 443 0 = (.remains, true) := by
  decide

/-- C6: the classifier's common-port predicate holds exactly for
TCP ports 53, 80, 443 and UDP ports 53, 443. -/
theorem c6_common_port_characterization (port proto : Nat)
    (hport : port < 65536) :
    isCommonPort port proto = true ↔
      (proto = TCP ∧ (port = 53 ∨ port = 80 ∨ port = 443)) ∨
      (proto = UDP ∧ (port = 53 ∨ port = 443)) := by
  simp only [isCommonPort, Bool.or_eq_true, Bool.and_eq_true, beq_iff_eq,
    decide_eq_true_eq]
  tauto

/-- C6 witness: port 53 over TCP is common. -/
theorem c6_common_port_characterization_witness :
    (53 : Nat) < 65536 ∧ (isCommonPort 53 TCP = true ↔
      (TCP = TCP ∧ ((53 : Nat) = 53 ∨ (53 : Nat) = 80 ∨ (53 : Nat) = 443)) ∨
      (TCP = UDP ∧ ((53 : Nat) = 53 ∨ (53 : Nat) = 443))) :=
  ⟨by norm_num, c6_common_port_characterization 53 TCP (by norm_num)⟩

/-- The modelled common-port predicate passes the source's
`TestPortMergeLogic` loop (GPPacket test file lines 78-91), which checks
every port below 65535 against both protocols. -/
theorem isCommonPort_matches_TestPortMergeLogic :
    ∀ i : Nat, i < 65535 →
      (isCommonPort i TCP = true ↔ (i = 53 ∨ i = 80 ∨ i = 443)) ∧
      (isCommonPort i UDP = true ↔ (i = 53 ∨ i = 443)) := by
  intro i _
  constructor
  · rw [c6_common_port_characterization i TCP (by omega)]
    simp [TCP, UDP]
  · rw [c6_common_port_characterization i UDP (by omega)]
    simp [TCP, UDP]

/-- C7: for TCP/UDP packets where none of the earlier direction rules
applies, the lower port is treated as the server: `remains` if
`sport > dport`, `reverts` if `sport < dport`, `remains` on a tie; in all
three cases the confidence flag is false. -/
theorem c7_port_order_fallback (proto sport dport auxInfo : Nat)
    (hproto : proto = TCP ∨ proto = UDP)
    (h1 : icmpRuleApplies proto auxInfo = false)
    (h2 : commonRuleApplies proto sport dport = false)
    (h3 : dhcpRuleApplies proto sport dport = false)
    (h4 : zeroedRuleApplies proto sport dport = false)
    (h5 : privRuleApplies sport dport = false) :
    (dport < sport →
      ClassifyPacketDirection proto sport dport auxInfo = (.remains, false)) ∧
    (sport < dport →
      ClassifyPacketDirection proto sport dport auxInfo = (.reverts, false)) ∧
    (sport = dport →
      ClassifyPacketDirection proto sport dport auxInfo = (.remains, false)) := by
  unfold ClassifyPacketDirection
  rw [h1, h2, h3, h4, h5]
  simp only [Bool.false_eq_true, if_false]
  refine ⟨fun h => ?_, fun h => ?_, fun h => ?_⟩
  · rw [if_pos h]
  · rw [if_neg (by omega), if_pos h]
  · rw [if_neg (by omega), if_neg (by omega)]

/-- C7 witness: a UDP packet from port 5000 to port 4000 with no earlier
rule applying classifies as `remains` with low confidence. -/
theorem c7_port_order_fallback_witness :
    (UDP = TCP ∨ UDP = UDP) ∧
    icmpRuleApplies UDP 0 = false ∧
    commonRuleApplies UDP 5000 4000 = false ∧
    dhcpRuleApplies UDP 5000 4000 = false ∧
    zeroedRuleApplies UDP 5000 4000 = false ∧
    privRuleApplies 5000 4000 = false ∧
    ((4000 : Nat) < 5000 →
      ClassifyPacketDirection UDP 5000 4000 0 = (.remains, false)) :=
  ⟨Or.inr rfl, by decide, by decide, by decide, by decide, by decide,
    (c7_port_order_fallback UDP 5000 4000 0 (Or.inr rfl) (by decide) (by decide)
      (by decide) (by decide) (by decide)).1⟩

/-- C8: the status endpoint responds 200 exactly when the statuses map is
non-empty and 204 exactly when it is empty. -/
theorem c8_status_code (statuses : List (String × Nat)) :
    ((getStatus statuses).1 = 200 ↔ statuses ≠ []) ∧
    ((getStatus statuses).1 = 204 ↔ statuses = []) := by
  unfold getStatus
  rcases statuses with _ | ⟨s, rest⟩ <;> simp

/-- C9: on a closed capture, `Status`, `Errors`, `Flows` and `Update`
return the zero value without sending on `cmdChan`, while `Rotate` has no
closed-check and always sends its command; the `closing` state function is
what closes `cmdChan` and sets the flag. -/
theorem c9_closed_capture_guards (c : CaptureSt) (h : c.closed = true) :
    c.Status = (none, []) ∧ c.Errors = [] ∧ c.Flows = [] ∧ c.Update = [] ∧
    c.Rotate = [.rotate] ∧
    (closingStep c).closed = true ∧ (closingStep c).cmdChanClosed = true := by
  simp [CaptureSt.Status, CaptureSt.Errors, CaptureSt.Flows, CaptureSt.Update,
    CaptureSt.Rotate, closingStep, h]

/-- C9 witness: the guards at a concrete closed capture state. -/
theorem c9_closed_capture_guards_witness :
    (CaptureSt.mk true true .closing 0).closed = true ∧
    ((CaptureSt.mk true true .closing 0).Status = (none, []) ∧
     (CaptureSt.mk true true .closing 0).Errors = [] ∧
     (CaptureSt.mk true true .closing 0).Flows = [] ∧
     (CaptureSt.mk true true .closing 0).Update = [] ∧
     (CaptureSt.mk true true .closing 0).Rotate = [.rotate] ∧
     (closingStep (CaptureSt.mk true true .closing 0)).closed = true ∧
     (closingStep (CaptureSt.mk true true .closing 0)).cmdChanClosed = true) :=
  ⟨rfl, c9_closed_capture_guards (CaptureSt.mk true true .closing 0) rfl⟩

/-! ## Claim C2 -/

/-- The running maximum tracked by `maxRunAux` dominates both of its
accumulators. -/
theorem maxRunAux_ge (evs : List Bool) : ∀ cur best : Nat,
    max best cur ≤ maxRunAux cur best evs := by
  induction evs with
  | nil => intro cur best; exact Nat.le_refl _
  | cons ok rest ih =>
    intro cur best
    unfold maxRunAux
    by_cases hok : ok
    · rw [if_pos hok]
      simpa using ih 0 (max best cur)
    · rw [if_neg hok]
      exact le_trans (max_le_max (Nat.le_refl best) (Nat.le_succ cur))
        (ih (cur + 1) best)

/-- Characterization of the fatal outcome of the processing loop: starting
from a current failure-run `cur` of tolerable size and a best-so-far
`best`, the loop reports a fatal error iff the longest failure run exceeds
the threshold. -/
theorem processLoop_iff_maxRun (evs : List Bool) : ∀ cur best : Nat,
    cur ≤ ErrorThreshold →
    (ErrorThreshold < maxRunAux cur best evs ↔
      ErrorThreshold < best ∨ processLoop cur evs = true) := by
  induction evs with
  | nil =>
    intro cur best hcur
    unfold maxRunAux processLoop
    simp only [Bool.false_eq_true, or_false]
    rw [lt_max_iff]
    omega
  | cons ok rest ih =>
    intro cur best hcur
    unfold maxRunAux processLoop
    by_cases hok : ok
    · rw [if_pos hok, if_pos hok]
      rw [ih 0 (max best cur) (Nat.zero_le _), lt_max_iff]
      have hnc : ¬ ErrorThreshold < cur := Nat.not_lt.mpr hcur
      tauto
    · rw [if_neg hok, if_neg hok]
      by_cases hthr : ErrorThreshold < cur + 1
      · rw [if_pos hthr]
        have hge := maxRunAux_ge rest (cur + 1) best
        have hlt : ErrorThreshold < max best (cur + 1) :=
          lt_of_lt_of_le hthr (le_max_right _ _)
        simp only [or_true, iff_true]
        exact lt_of_lt_of_le hlt hge
      · rw [if_neg hthr]
        exact ih (cur + 1) best (by omega)

/-- C2: the packet-processing loop reports a fatal error (sent on the
capture's error channel) exactly when more than `ErrorThreshold = 10000`
consecutive decode failures occur; a successful decode resets the
consecutive-failure counter to zero; and the `capturing` state function
moves to the error state on a message from the error channel. -/
theorem c2_decode_error_threshold :
    (∀ evs : List Bool,
      processLoop 0 evs = true ↔ ErrorThreshold < maxFailRun evs) ∧
    (∀ (c : Nat) (rest : List Bool),
      processLoop c (true :: rest) = processLoop 0 rest) ∧
    capturingStep .captureError = some .error := by
  refine ⟨fun evs => ?_, fun c rest => rfl, rfl⟩
  have h := processLoop_iff_maxRun evs 0 0 (Nat.zero_le _)
  unfold maxFailRun
  rw [h]
  simp [ErrorThreshold]

/-- C2 witness: 10001 straight failures trip the threshold, 10000 do not,
and one success in between resets the counter. -/
theorem c2_decode_error_threshold_witness :
    (processLoop 0 (List.replicate 10001 false) = true ↔
      ErrorThreshold < maxFailRun (List.replicate 10001 false)) ∧
    (processLoop 0 (List.replicate 10000 false) = true ↔
      ErrorThreshold < maxFailRun (List.replicate 10000 false)) ∧
    processLoop 5 (true :: List.replicate 3 false) =
      processLoop 0 (List.replicate 3 false) :=
  ⟨c2_decode_error_threshold.1 (List.replicate 10001 false),
   c2_decode_error_threshold.1 (List.replicate 10000 false),
   c2_decode_error_threshold.2.1 5 (List.replicate 3 false)⟩

/-! ## Claim C3 -/

/-- Slot `i` of the header is unused: its (timestamp, offset, length)
triple is all zeros. -/
def zeroTriple (f : GPFile) (i : Nat) : Prop :=
  f.timestamps.getD i 0 = 0 ∧ f.blocks.getD i 0 = 0 ∧ f.lengths.getD i 0 = 0

instance (f : GPFile) (i : Nat) : Decidable (zeroTriple f i) := by
  unfold zeroTriple; infer_instance

/-- The all-zero-triple predicate over three raw header arrays. -/
def zTriple (ts bs ls : List Int) (j : Nat) : Prop :=
  ts.getD j 0 = 0 ∧ bs.getD j 0 = 0 ∧ ls.getD j 0 = 0

/-- The `BlocksUsed` loop finds exactly the least all-zero slot triple. -/
theorem blocksUsedGo_some_iff : ∀ (ts bs ls : List Int) (k m : Nat),
    blocksUsedGo k ts bs ls = some m ↔
      ∃ j, m = k + j ∧ j < ts.length ∧ j < bs.length ∧ j < ls.length ∧
        zTriple ts bs ls j ∧ ∀ i < j, ¬ zTriple ts bs ls i := by
  intro ts
  induction ts with
  | nil =>
    intro bs ls k m
    constructor
    · intro h; cases bs <;> cases ls <;> simp [blocksUsedGo] at h
    · rintro ⟨j, -, hj, -⟩; exact absurd hj (by simp)
  | cons t ts' ih =>
    intro bs ls k m
    cases bs with
    | nil =>
      constructor
      · intro h; simp [blocksUsedGo] at h
      · rintro ⟨j, -, -, hj, -⟩; exact absurd hj (by simp)
    | cons b bs' =>
      cases ls with
      | nil =>
        constructor
        · intro h; simp [blocksUsedGo] at h
        · rintro ⟨j, -, -, -, hj, -⟩; exact absurd hj (by simp)
      | cons l ls' =>
        unfold blocksUsedGo
        by_cases hz : t = 0 ∧ b = 0 ∧ l = 0
        · rw [if_pos hz]
          constructor
          · intro h
            refine ⟨0, by simpa using h.symm, by simp, by simp, by simp, ?_, ?_⟩
            · simpa [zTriple] using hz
            · intro i hi; omega
          · rintro ⟨j, hm, -, -, -, hZ, hmin⟩
            cases j with
            | zero => simp [hm]
            | succ j' =>
              exact absurd (by simpa [zTriple] using hz) (hmin 0 (Nat.succ_pos j'))
        · rw [if_neg hz]
          rw [ih bs' ls' (k + 1) m]
          constructor
          · rintro ⟨j', hm, h1, h2, h3, hZ, hmin⟩
            refine ⟨j' + 1, by omega, by simpa using h1, by simpa using h2,
              by simpa using h3, by simpa [zTriple] using hZ, ?_⟩
            intro i hi
            cases i with
            | zero => simpa [zTriple] using hz
            | succ i' =>
              have := hmin i' (by omega)
              simpa [zTriple] using this
          · rintro ⟨j, hm, h1, h2, h3, hZ, hmin⟩
            cases j with
            | zero =>
              exact absurd (by simpa [zTriple] using hZ) hz
            | succ j' =>
              refine ⟨j', by omega, by simpa using h1, by simpa using h2,
                by simpa using h3, by simpa [zTriple] using hZ, ?_⟩
              intro i hi
              have := hmin (i + 1) (by omega)
              simpa [zTriple] using this

/-- The `BlocksUsed` loop runs off the end exactly when no slot triple is
all zeros. -/
theorem blocksUsedGo_none_iff : ∀ (ts bs ls : List Int) (k : Nat),
    blocksUsedGo k ts bs ls = none ↔
      ∀ j, j < ts.length → j < bs.length → j < ls.length →
        ¬ zTriple ts bs ls j := by
  intro ts
  induction ts with
  | nil =>
    intro bs ls k
    constructor
    · intro _ j hj; exact absurd hj (by simp)
    · intro _; cases bs <;> cases ls <;> rfl
  | cons t ts' ih =>
    intro bs ls k
    cases bs with
    | nil =>
      constructor
      · intro _ j _ hj; exact absurd hj (by simp)
      · intro _; rfl
    | cons b bs' =>
      cases ls with
      | nil =>
        constructor
        · intro _ j _ _ hj; exact absurd hj (by simp)
        · intro _; rfl
      | cons l ls' =>
        unfold blocksUsedGo
        by_cases hz : t = 0 ∧ b = 0 ∧ l = 0
        · rw [if_pos hz]
          constructor
          · intro h; exact absurd h (by simp)
          · intro h
            exact absurd (by simpa [zTriple] using hz)
              (h 0 (by simp) (by simp) (by simp))
        · rw [if_neg hz]
          rw [ih bs' ls' (k + 1)]
          constructor
          · intro h j h1 h2 h3
            cases j with
            | zero => simpa [zTriple] using hz
            | succ j' =>
              have := h j' (by simpa using h1) (by simpa using h2)
                (by simpa using h3)
              simpa [zTriple] using this
          · intro h j h1 h2 h3
            have := h (j + 1) (by simpa using h1) (by simpa using h2)
              (by simpa using h3)
            simpa [zTriple] using this

/-- A `GPFile` whose 512 header slots are all occupied (every triple is
nonzero). -/
def fullGPFile : GPFile :=
  { blocks := List.replicate NumElements 1
    timestamps := List.replicate NumElements 1
    lengths := List.replicate NumElements 1
    fileData := [] }

set_option maxRecDepth 4000 in
/-- C3 counterexample: on a file whose 512 slots are all occupied,
`BlocksUsed` does not return 512 — it takes the `(-1, error)` return
(modelled `none`). -/
theorem c3_counterexample :
    (∀ i, i < NumElements → ¬ zeroTriple fullGPFile i) ∧
    fullGPFile.BlocksUsed ≠ some NumElements ∧
    fullGPFile.BlocksUsed = none := by decide

/-- C3 (amended): `BlocksUsed` returns the smallest index whose header
slot triple is all zeros; if all 512 slots are occupied it does not return
512 but fails with an error (`-1` and a non-nil error in the source,
modelled as `none`). -/
theorem c3_blocksUsed_least_zero_triple (f : GPFile)
    (hts : f.timestamps.length = NumElements)
    (hbs : f.blocks.length = NumElements)
    (hls : f.lengths.length = NumElements) :
    (∀ m, f.BlocksUsed = some m ↔
      (m < NumElements ∧ zeroTriple f m ∧ ∀ j < m, ¬ zeroTriple f j)) ∧
    (f.BlocksUsed = none ↔ ∀ j < NumElements, ¬ zeroTriple f j) := by
  have hzt : ∀ i, zTriple f.timestamps f.blocks f.lengths i ↔ zeroTriple f i := by
    intro i; rfl
  constructor
  · intro m
    rw [GPFile.BlocksUsed, blocksUsedGo_some_iff, hts, hbs, hls]
    constructor
    · rintro ⟨j, hm, h1, -, -, hZ, hmin⟩
      refine ⟨by omega, ?_, ?_⟩
      · rw [← hzt]; rw [hm]; simpa using hZ
      · intro i hi
        rw [← hzt]
        exact hmin i (by omega)
    · rintro ⟨hlt, hZ, hmin⟩
      refine ⟨m, by omega, hlt, hlt, hlt, by rw [hzt]; exact hZ, ?_⟩
      intro i hi
      rw [hzt]
      exact hmin i hi
  · rw [GPFile.BlocksUsed, blocksUsedGo_none_iff, hts, hbs, hls]
    constructor
    · intro h j hj
      rw [← hzt]
      exact h j hj hj hj
    · intro h j hj _ _
      rw [hzt]
      exact h j hj

/-- C3 witness: on the empty file, the least all-zero triple is slot 0. -/
theorem c3_blocksUsed_least_zero_triple_witness :
    emptyGPFile.timestamps.length = NumElements ∧
    (emptyGPFile.BlocksUsed = some 0 ↔
      (0 < NumElements ∧ zeroTriple emptyGPFile 0 ∧
        ∀ j < 0, ¬ zeroTriple emptyGPFile j)) :=
  ⟨by simp [emptyGPFile], (c3_blocksUsed_least_zero_triple emptyGPFile
    (by simp [emptyGPFile]) (by simp [emptyGPFile]) (by simp [emptyGPFile])).1 0⟩

/-! ## Claims C1, C4, C5: well-formed file states -/

/-- `getD` on a replicated list returns the replicated element. -/
theorem getD_replicate {α : Type} (x : α) : ∀ (k j : Nat),
    (List.replicate k x).getD j x = x := by
  intro k
  induction k with
  | zero => intro j; rfl
  | succ k' ih =>
    intro j
    cases j with
    | zero => rfl
    | succ j' => simpa [List.replicate] using ih j'

/-- The slot scan of `WriteTimedBlock` on a header made of a nonzero used
area followed by free slots: a timestamp already present is a duplicate,
otherwise the first free slot is the one right after the used area, and
with no free slot the file is full. -/
theorem scanSlots_spec (ts : Int) (hts : ts ≠ 0) :
    ∀ (used : List Int) (k : Nat), (∀ t ∈ used, t ≠ 0) →
    scanSlots ts (used ++ List.replicate k 0) =
      if ts ∈ used then .dup else if 0 < k then .free used.length else .full := by
  intro used
  induction used with
  | nil =>
    intro k _
    cases k with
    | zero => simp [scanSlots]
    | succ k' =>
      simp only [List.nil_append, List.not_mem_nil, if_false, Nat.zero_lt_succ,
        if_true, List.replicate]
      unfold scanSlots
      rw [if_neg (fun h => hts h.symm), if_pos rfl]
      simp
  | cons u us ih =>
    intro k hnz
    simp only [List.cons_append]
    unfold scanSlots
    by_cases hu : u = ts
    · rw [if_pos hu]
      simp [List.mem_cons, hu]
    · rw [if_neg hu, if_neg (hnz u (List.mem_cons_self u us))]
      rw [ih k (fun t ht => hnz t (List.mem_cons_of_mem u ht))]
      have hne : ts ≠ u := fun h => hu h.symm
      by_cases hmem : ts ∈ us
      · rw [if_pos hmem]
        simp [List.mem_cons, hmem]
      · rw [if_neg hmem]
        by_cases hk : 0 < k
        · rw [if_pos hk]
          simp [List.mem_cons, hmem, hne, hk]
        · rw [if_neg hk]
          simp [List.mem_cons, hmem, hne, hk]

/-- The `BlocksUsed` loop on a header made of a nonzero used area followed
by free slots finds the first free slot, or none if there is none. -/
theorem blocksUsedGo_spec :
    ∀ (tsu bsu lsu : List Int) (k i : Nat),
    bsu.length = tsu.length → lsu.length = tsu.length →
    (∀ t ∈ tsu, t ≠ 0) →
    blocksUsedGo i (tsu ++ List.replicate k 0) (bsu ++ List.replicate k 0)
        (lsu ++ List.replicate k 0) =
      if 0 < k then some (i + tsu.length) else none := by
  intro tsu
  induction tsu with
  | nil =>
    intro bsu lsu k i hb hl _
    have hb' : bsu = [] := List.length_eq_zero.mp (by simpa using hb)
    have hl' : lsu = [] := List.length_eq_zero.mp (by simpa using hl)
    subst hb'; subst hl'
    cases k with
    | zero => rfl
    | succ k' =>
      simp only [List.nil_append, List.replicate, Nat.zero_lt_succ, if_true]
      unfold blocksUsedGo
      rw [if_pos ⟨rfl, rfl, rfl⟩]
      simp
  | cons t tsu' ih =>
    intro bsu lsu k i hb hl hnz
    cases bsu with
    | nil => simp at hb
    | cons b bsu' =>
      cases lsu with
      | nil => simp at hl
      | cons l lsu' =>
        simp only [List.cons_append]
        unfold blocksUsedGo
        rw [if_neg (fun h => hnz t (List.mem_cons_self t tsu') h.1)]
        rw [ih bsu' lsu' k (i + 1) (by simpa using hb) (by simpa using hl)
          (fun x hx => hnz x (List.mem_cons_of_mem t hx))]
        by_cases hk : 0 < k
        · rw [if_pos hk, if_pos hk]
          congr 1
          simp only [List.length_cons]
          omega
        · rw [if_neg hk, if_neg hk]

/-- `findIdx?` locates the first occurrence of a value. -/
theorem findIdx?_first_occurrence (ts : Int) :
    ∀ (pre suf : List Int) (i : Nat), ts ∉ pre →
    List.findIdx? (· == ts) (pre ++ ts :: suf) i = some (i + pre.length) := by
  intro pre
  induction pre with
  | nil =>
    intro suf i _
    simp [List.findIdx?_cons]
  | cons p ps ih =>
    intro suf i hmem
    simp only [List.cons_append, List.findIdx?_cons]
    have hne : ¬ (p == ts) = true := by
      simp only [beq_iff_eq]
      exact fun h => hmem (h ▸ List.mem_cons_self p ps)
    rw [if_neg hne]
    rw [ih suf (i + 1) (fun h => hmem (List.mem_cons_of_mem p h))]
    congr 1
    simp only [List.length_cons]
    omega

/-- End-of-data offset after writing the compressed forms of `ds` starting
from absolute offset `acc`. -/
def endOffset (enc : Encoder) (acc : Int) (ds : List (List Nat)) : Int :=
  acc + (ds.map (fun d => ((enc.Compress d).length : Int))).sum

/-- The end-of-block offsets recorded in the header for payloads `ds`
written consecutively from absolute offset `acc`. -/
def flowOffsets (enc : Encoder) (acc : Int) : List (List Nat) → List Int
  | [] => []
  | d :: rest =>
    (acc + ((enc.Compress d).length : Int)) ::
      flowOffsets enc (acc + ((enc.Compress d).length : Int)) rest

/-- There is one end-of-block offset per payload. -/
theorem flowOffsets_length (enc : Encoder) :
    ∀ (ds : List (List Nat)) (acc : Int),
    (flowOffsets enc acc ds).length = ds.length := by
  intro ds
  induction ds with
  | nil => intro acc; rfl
  | cons d rest ih =>
    intro acc
    simp [flowOffsets, ih]

/-- `endOffset` over an empty payload list. -/
theorem endOffset_nil (enc : Encoder) (acc : Int) : endOffset enc acc [] = acc := by
  simp [endOffset]

/-- `endOffset` over a one-longer payload list. -/
theorem endOffset_append_one (enc : Encoder) (acc : Int) (ds : List (List Nat))
    (d : List Nat) :
    endOffset enc acc (ds ++ [d]) =
      endOffset enc acc ds + ((enc.Compress d).length : Int) := by
  simp [endOffset]
  ring

/-- Appending one payload appends its end offset. -/
theorem flowOffsets_append_one (enc : Encoder) :
    ∀ (ds : List (List Nat)) (acc : Int) (d : List Nat),
    flowOffsets enc acc (ds ++ [d]) =
      flowOffsets enc acc ds ++ [endOffset enc acc ds + ((enc.Compress d).length : Int)] := by
  intro ds
  induction ds with
  | nil =>
    intro acc d
    simp [flowOffsets, endOffset]
  | cons e rest ih =>
    intro acc d
    simp only [List.cons_append, flowOffsets, List.append_eq]
    rw [ih]
    congr 3
    simp [endOffset]
    ring

/-- Each recorded end offset is the end offset of the payloads up to and
including it. -/
theorem flowOffsets_getD (enc : Encoder) :
    ∀ (ds : List (List Nat)) (acc : Int) (j : Nat), j < ds.length →
    (flowOffsets enc acc ds).getD j 0 = endOffset enc acc (ds.take (j + 1)) := by
  intro ds
  induction ds with
  | nil => intro acc j hj; exact absurd hj (by simp)
  | cons d rest ih =>
    intro acc j hj
    cases j with
    | zero =>
      simp [flowOffsets, endOffset]
    | succ j' =>
      simp only [flowOffsets, List.getD_cons_succ, List.take_succ_cons]
      rw [ih (acc + ((enc.Compress d).length : Int)) j' (by simpa using hj)]
      simp [endOffset]
      ring

/-- Setting the element right at the boundary between a prefix and a
replicated free area. -/
theorem set_boundary {α : Type} (pre : List α) (k : Nat) (z x : α) (hk : 0 < k) :
    (pre ++ List.replicate k z).set pre.length x =
      pre ++ x :: List.replicate (k - 1) z := by
  rw [List.set_append, if_neg (lt_irrefl _), Nat.sub_self]
  cases k with
  | zero => omega
  | succ k' => simp [List.replicate]

/-- The file state reached by writing the timestamped payloads `written`
in order into a fresh `GPFile`: the header arrays hold the timestamps,
end-of-block offsets and payload lengths of `written` followed by free
slots, and the data region holds the concatenated compressed payloads. -/
def GoodFile (enc : Encoder) (written : List (Int × List Nat)) (f : GPFile) :
    Prop :=
  written.length ≤ NumElements ∧
  f.timestamps = written.map Prod.fst ++
    List.replicate (NumElements - written.length) 0 ∧
  f.blocks = flowOffsets enc ((BufSize : Int) * 3) (written.map Prod.snd) ++
    List.replicate (NumElements - written.length) 0 ∧
  f.lengths = written.map (fun p => ((p.2.length : Nat) : Int)) ++
    List.replicate (NumElements - written.length) 0 ∧
  f.fileData = (written.map (fun p => enc.Compress p.2)).flatten

/-- A fresh file is the good state for the empty write sequence. -/
theorem goodFile_empty (enc : Encoder) : GoodFile enc [] emptyGPFile := by
  simp [GoodFile, emptyGPFile, flowOffsets]

/-- One successful `WriteTimedBlock` step preserves the good file state:
a fresh nonzero timestamp lands in the lowest free slot together with the
new end offset and the payload length, and the compressed payload is
appended to the data region. -/
theorem writeTimedBlock_step (enc : Encoder) (written : List (Int × List Nat))
    (f : GPFile) (ts : Int) (d : List Nat)
    (hg : GoodFile enc written f)
    (hnz : ∀ t ∈ written.map Prod.fst, t ≠ 0) (hts : ts ≠ 0)
    (hmem : ts ∉ written.map Prod.fst)
    (hlen : written.length < NumElements) :
    ∃ f', f.WriteTimedBlock enc ts d = .ok f' ∧
      GoodFile enc (written ++ [(ts, d)]) f' := by
  obtain ⟨hle, hts_eq, hbs_eq, hls_eq, hfd_eq⟩ := hg
  have hnlen : (written.map Prod.fst).length = written.length := List.length_map _ _
  have hklen : 0 < NumElements - written.length := by omega
  unfold GPFile.WriteTimedBlock
  rw [hts_eq, scanSlots_spec ts hts _ _ hnz, if_neg hmem, if_pos hklen, hnlen]
  simp only
  have hfo_len : (flowOffsets enc ((BufSize : Int) * 3)
      (written.map Prod.snd)).length = written.length := by
    rw [flowOffsets_length, List.length_map]
  have hll_len : (written.map (fun p => ((p.2.length : Nat) : Int))).length =
      written.length := List.length_map _ _
  have hnext : (if written.length = 0 then (BufSize : Int) * 3
      else f.blocks.getD (written.length - 1) 0) =
      endOffset enc ((BufSize : Int) * 3) (written.map Prod.snd) := by
    by_cases h0 : written.length = 0
    · rw [if_pos h0]
      have : written = [] := List.length_eq_zero.mp h0
      subst this
      simp [endOffset]
    · rw [if_neg h0, hbs_eq]
      rw [List.getD_append _ _ _ _ (by omega)]
      rw [flowOffsets_getD enc _ _ _ (by rw [List.length_map]; omega)]
      congr 1
      rw [List.take_of_length_le (by rw [List.length_map]; omega)]
  rw [hnext]
  have hset_ts := set_boundary (written.map Prod.fst)
    (NumElements - written.length) (0 : Int) ts hklen
  rw [hnlen] at hset_ts
  have hset_bs := set_boundary (flowOffsets enc ((BufSize : Int) * 3)
    (written.map Prod.snd)) (NumElements - written.length) (0 : Int)
    (endOffset enc ((BufSize : Int) * 3) (written.map Prod.snd) +
      ((enc.Compress d).length : Int)) hklen
  rw [hfo_len] at hset_bs
  have hset_ls := set_boundary (written.map (fun p => ((p.2.length : Nat) : Int)))
    (NumElements - written.length) (0 : Int) ((d.length : Nat) : Int) hklen
  rw [hll_len] at hset_ls
  have harith : NumElements - written.length - 1 =
      NumElements - (written.length + 1) := by omega
  have hT : (List.map Prod.fst written ++
      List.replicate (NumElements - written.length) 0).set written.length ts =
      List.map Prod.fst (written ++ [(ts, d)]) ++
      List.replicate (NumElements - (written ++ [(ts, d)]).length) 0 := by
    rw [hset_ts]
    simp only [List.map_append, List.map_cons, List.map_nil, List.length_append,
      List.length_cons, List.length_nil, List.append_assoc, List.cons_append,
      List.nil_append]
    rw [harith]
  have hB : f.blocks.set written.length
      (endOffset enc ((BufSize : Int) * 3) (written.map Prod.snd) +
        ((enc.Compress d).length : Int)) =
      flowOffsets enc ((BufSize : Int) * 3)
        (List.map Prod.snd (written ++ [(ts, d)])) ++
      List.replicate (NumElements - (written ++ [(ts, d)]).length) 0 := by
    rw [hbs_eq, hset_bs]
    simp only [List.map_append, List.map_cons, List.map_nil]
    rw [flowOffsets_append_one]
    simp only [List.length_append, List.length_cons, List.length_nil,
      List.append_assoc, List.cons_append, List.nil_append]
    rw [harith]
  have hL : f.lengths.set written.length ((d.length : Nat) : Int) =
      List.map (fun p => ((p.2.length : Nat) : Int)) (written ++ [(ts, d)]) ++
      List.replicate (NumElements - (written ++ [(ts, d)]).length) 0 := by
    rw [hls_eq, hset_ls]
    simp only [List.map_append, List.map_cons, List.map_nil, List.length_append,
      List.length_cons, List.length_nil, List.append_assoc, List.cons_append,
      List.nil_append]
    rw [harith]
  have hD : f.fileData ++ enc.Compress d =
      (List.map (fun p => enc.Compress p.2) (written ++ [(ts, d)])).flatten := by
    rw [hfd_eq]
    simp
  exact ⟨_, rfl,
    by simp only [List.length_append, List.length_cons, List.length_nil]; omega,
    hT, hB, hL, hD⟩

/-- Folding `WriteTimedBlock` over fresh, nonzero, pairwise-distinct
timestamps extends the good file state write by write. -/
theorem writeSeq_good (enc : Encoder) :
    ∀ (pairs acc : List (Int × List Nat)) (f : GPFile),
    GoodFile enc acc f →
    (∀ t ∈ (acc ++ pairs).map Prod.fst, t ≠ 0) →
    ((acc ++ pairs).map Prod.fst).Nodup →
    (acc ++ pairs).length ≤ NumElements →
    ∃ f', writeSeq enc pairs f = .ok f' ∧ GoodFile enc (acc ++ pairs) f' := by
  intro pairs
  induction pairs with
  | nil =>
    intro acc f hg _ _ _
    exact ⟨f, rfl, by simpa using hg⟩
  | cons p rest ih =>
    intro acc f hg hnz hnodup hlen
    obtain ⟨ts, d⟩ := p
    have hmem : ts ∉ acc.map Prod.fst := by
      intro hin
      have hnd := hnodup
      rw [List.map_append, List.nodup_append] at hnd
      exact hnd.2.2 hin (by simp)
    have hts : ts ≠ 0 := hnz ts (by simp)
    have hlt : acc.length < NumElements := by
      have := hlen
      simp only [List.length_append, List.length_cons] at this
      omega
    have hnza : ∀ t ∈ acc.map Prod.fst, t ≠ 0 := by
      intro t ht
      exact hnz t (by rw [List.map_append]; exact List.mem_append_left _ ht)
    obtain ⟨f1, hw, hg1⟩ := writeTimedBlock_step enc acc f ts d hg hnza hts hmem hlt
    have hstep : writeSeq enc ((ts, d) :: rest) f = writeSeq enc rest f1 := by
      show (do
        let f' ← f.WriteTimedBlock enc ts d
        writeSeq enc rest f') = writeSeq enc rest f1
      rw [hw]
      rfl
    have hre : acc ++ (ts, d) :: rest = (acc ++ [(ts, d)]) ++ rest := by
      simp
    obtain ⟨f', hws, hg'⟩ := ih (acc ++ [(ts, d)]) f1 hg1
      (by rw [← hre]; exact hnz) (by rw [← hre]; exact hnodup)
      (by rw [← hre]; exact hlen)
    exact ⟨f', by rw [hstep]; exact hws, by rw [hre]; exact hg'⟩

/-- `getD` at the boundary between a prefix and an appended cons cell. -/
theorem getD_boundary {α : Type} (pre : List α) (x : α) (rest : List α)
    (dflt : α) : (pre ++ x :: rest).getD pre.length dflt = x := by
  rw [List.getD_append_right _ _ _ _ (le_refl _), Nat.sub_self]
  rfl

/-- Casting a sum of naturals into the integers, elementwise. -/
theorem intSum_natCast (g : List Nat → Nat) : ∀ ds : List (List Nat),
    (ds.map (fun d => ((g d : Nat) : Int))).sum = (((ds.map g).sum : Nat) : Int) := by
  intro ds
  induction ds with
  | nil => simp
  | cons d rest ih =>
    simp only [List.map_cons, List.sum_cons, ih]
    push_cast
    ring

/-- Reading back any timestamp of a good file state returns its original
payload, provided decompression is lossless. -/
theorem readTimedBlock_good (enc : Encoder)
    (hLoss : ∀ payload rest : List Nat,
      enc.Decompress (enc.Compress payload ++ rest) (enc.Compress payload).length
        payload.length = ((enc.Compress payload).length, payload))
    (written : List (Int × List Nat)) (f : GPFile)
    (hg : GoodFile enc written f)
    (hnz : ∀ t ∈ written.map Prod.fst, t ≠ 0)
    (hnodup : (written.map Prod.fst).Nodup)
    (ts : Int) (d : List Nat) (hp : (ts, d) ∈ written) :
    f.ReadTimedBlock enc ts = .ok d := by
  obtain ⟨pre, suf, rfl⟩ := List.append_of_mem hp
  obtain ⟨hle, hts_eq, hbs_eq, hls_eq, hfd_eq⟩ := hg
  have hts0 : ts ≠ 0 := hnz ts (by simp)
  have hpre_mem : ts ∉ pre.map Prod.fst := by
    rw [List.map_append, List.nodup_append] at hnodup
    exact fun hin => hnodup.2.2 hin (by simp)
  have hn : (pre ++ (ts, d) :: suf).length = pre.length + 1 + suf.length := by
    simp; omega
  have hklen : NumElements - (pre ++ (ts, d) :: suf).length =
      NumElements - (pre.length + 1 + suf.length) := by rw [hn]
  -- split the header array shapes around the target slot
  simp only [List.map_append, List.map_cons] at hts_eq hls_eq hfd_eq hbs_eq
  have hts_eq2 : f.timestamps = pre.map Prod.fst ++ ts ::
      (suf.map Prod.fst ++
        List.replicate (NumElements - (pre ++ (ts, d) :: suf).length) 0) := by
    rw [hts_eq]
    simp
  have hidx : f.timestamps.findIdx? (· == ts) = some pre.length := by
    rw [hts_eq2]
    have h := findIdx?_first_occurrence ts (pre.map Prod.fst)
      (suf.map Prod.fst ++
        List.replicate (NumElements - (pre ++ (ts, d) :: suf).length) 0) 0 hpre_mem
    simpa using h
  show (match f.timestamps.findIdx? (· == ts) with
    | some i => f.ReadBlock enc i
    | none => .error .timestampNotFound) = .ok d
  rw [hidx]
  show f.ReadBlock enc pre.length = .ok d
  -- slot values at index pre.length
  have hmaplen : (pre.map Prod.fst).length = pre.length := List.length_map _ _
  have hgetT : f.timestamps.getD pre.length 0 = ts := by
    rw [hts_eq2, ← hmaplen, getD_boundary]
  have hgetL : f.lengths.getD pre.length 0 = ((d.length : Nat) : Int) := by
    rw [hls_eq]
    have h1 : (pre.map (fun p => ((p.2.length : Nat) : Int))).length = pre.length :=
      List.length_map _ _
    rw [List.append_assoc, List.cons_append, ← h1, getD_boundary]
  -- block offsets
  have hfo_len : (flowOffsets enc ((BufSize : Int) * 3)
      (pre.map Prod.snd ++ d :: suf.map Prod.snd)).length =
      pre.length + 1 + suf.length := by
    rw [flowOffsets_length]
    simp
    omega
  have hgetB : f.blocks.getD pre.length 0 =
      endOffset enc ((BufSize : Int) * 3) (pre.map Prod.snd ++ [d]) := by
    rw [hbs_eq]
    rw [List.getD_append _ _ _ _ (by omega)]
    rw [flowOffsets_getD enc _ _ _ (by simp)]
    congr 1
    rw [List.take_append_eq_append_take, List.take_of_length_le (by simp)]
    congr 1
    have : pre.length + 1 - (pre.map Prod.snd).length = 1 := by
      simp
    rw [this]
    simp
  have hseek : f.seekPos pre.length =
      endOffset enc ((BufSize : Int) * 3) (pre.map Prod.snd) := by
    unfold GPFile.seekPos
    by_cases h0 : pre.length = 0
    · rw [if_pos h0]
      have hpre : pre = [] := List.length_eq_zero.mp h0
      subst hpre
      simp [endOffset]
    · rw [if_neg h0, hbs_eq]
      rw [List.getD_append _ _ _ _ (by omega)]
      rw [flowOffsets_getD enc _ _ _ (by simp; omega)]
      congr 1
      have h1 : pre.length - 1 + 1 = pre.length := by omega
      rw [h1, List.take_append_eq_append_take,
        List.take_of_length_le (by simp)]
      have h2 : pre.length - (pre.map Prod.snd).length = 0 := by simp
      rw [h2]
      simp
  have hreadLen : f.readLen pre.length = ((enc.Compress d).length : Int) := by
    unfold GPFile.readLen
    rw [hgetB, hseek, endOffset_append_one]
    ring
  -- the data stream at the block's start
  have hoff : f.seekPos pre.length - (BufSize : Int) * 3 =
      (((pre.map Prod.snd).map (fun x => (enc.Compress x).length)).sum : Int) := by
    rw [hseek]
    unfold endOffset
    rw [intSum_natCast (fun x => (enc.Compress x).length)]
    ring
  have hSlen : (pre.map (fun p => enc.Compress p.2)).flatten.length =
      ((pre.map Prod.snd).map (fun x => (enc.Compress x).length)).sum := by
    rw [List.length_flatten, List.map_map, List.map_map]
    rfl
  have hstream : f.fileData.drop (f.seekPos pre.length - (BufSize : Int) * 3).toNat =
      enc.Compress d ++ (suf.map (fun p => enc.Compress p.2)).flatten := by
    rw [hfd_eq, hoff, Int.toNat_natCast]
    rw [List.flatten_append, List.flatten_cons]
    rw [← hSlen, ← List.append_assoc]
    rw [show (pre.map (fun p => enc.Compress p.2)).flatten ++ enc.Compress d ++
        (suf.map (fun p => enc.Compress p.2)).flatten =
        (pre.map (fun p => enc.Compress p.2)).flatten ++ (enc.Compress d ++
        (suf.map (fun p => enc.Compress p.2)).flatten) from by
      rw [List.append_assoc]]
    rw [List.drop_left]
  -- put the pieces together
  unfold GPFile.ReadBlock
  rw [if_neg (fun hcontra => hts0 (by rw [hgetT] at hcontra; exact hcontra.1))]
  rw [hstream, hreadLen, hgetL, Int.toNat_natCast, Int.toNat_natCast]
  rw [hLoss d ((suf.map (fun p => enc.Compress p.2)).flatten)]
  simp

/-- `endOffset` consumes payloads one at a time. -/
theorem endOffset_cons (enc : Encoder) (acc : Int) (d : List Nat)
    (rest : List (List Nat)) :
    endOffset enc acc (d :: rest) =
      endOffset enc (acc + ((enc.Compress d).length : Int)) rest := by
  simp [endOffset]
  ring

/-- Every recorded end offset lies between the start offset and the final
end offset. -/
theorem flowOffsets_bounds (enc : Encoder) :
    ∀ (ds : List (List Nat)) (acc : Int) (v : Int),
    v ∈ flowOffsets enc acc ds → acc ≤ v ∧ v ≤ endOffset enc acc ds := by
  intro ds
  induction ds with
  | nil => intro acc v hv; exact absurd hv (by simp [flowOffsets])
  | cons d rest ih =>
    intro acc v hv
    have hsum : (0 : Int) ≤ (rest.map (fun x => ((enc.Compress x).length : Int))).sum := by
      rw [intSum_natCast (fun x => (enc.Compress x).length)]
      exact Int.natCast_nonneg _
    rcases List.mem_cons.mp hv with h | h
    · subst h
      refine ⟨by omega, ?_⟩
      rw [endOffset_cons]
      unfold endOffset
      omega
    · have := ih (acc + ((enc.Compress d).length : Int)) v h
      rw [endOffset_cons]
      refine ⟨?_, this.2⟩
      have : acc ≤ acc + ((enc.Compress d).length : Int) := by
        have := Int.natCast_nonneg (enc.Compress d).length
        omega
      omega

/-- With the LZ4 worst-case expansion bound, the final end offset is
bounded linearly in the number of blocks for payloads of at most 2^31
bytes. -/
theorem endOffset_le (enc : Encoder)
    (hexp : ∀ d, (enc.Compress d).length ≤ 2 * d.length + 64) :
    ∀ (ds : List (List Nat)) (acc : Int), (∀ d ∈ ds, d.length ≤ 2 ^ 31) →
    endOffset enc acc ds ≤ acc + (ds.length : Int) * (2 ^ 32 + 64) := by
  intro ds
  induction ds with
  | nil => intro acc _; simp [endOffset]
  | cons d rest ih =>
    intro acc hpay
    rw [endOffset_cons]
    have h1 := ih (acc + ((enc.Compress d).length : Int))
      (fun x hx => hpay x (List.mem_cons_of_mem d hx))
    have h2 : (enc.Compress d).length ≤ 2 ^ 32 + 64 := by
      have := hexp d
      have := hpay d (List.mem_cons_self d rest)
      omega
    have h3 : ((enc.Compress d).length : Int) ≤ 2 ^ 32 + 64 := by
      exact_mod_cast h2
    simp only [List.length_cons]
    push_cast
    omega

/-- The padded buffer has exactly the requested length. -/
theorem padTo_length (n : Nat) (l : List Nat) : (padTo n l).length = n := by
  unfold padTo
  rw [List.length_append, List.length_take, List.length_replicate]
  omega

/-- Padding to a list's own length changes nothing. -/
theorem padTo_self (l : List Nat) : padTo l.length l = l := by
  unfold padTo
  simp

/-- The identity codec satisfies the modelled LZ4 contract. -/
theorem idCodec_LZ4Like : idCodec.LZ4Like := by
  refine ⟨?_, ?_, ?_⟩
  · intro payload rest
    show (min payload.length (payload ++ rest).length,
      padTo payload.length ((payload ++ rest).take payload.length)) = _
    rw [List.take_left]
    rw [padTo_self]
    congr 1
    show min payload.length (payload ++ rest).length = payload.length
    simp
  · intro s a b
    exact padTo_length _ _
  · intro d
    show d.length ≤ 2 * d.length + 64
    omega

/-- C1: starting from a fresh `GPFile`, writing payloads of at most 2^31
bytes under a strictly increasing sequence of at most 512 nonzero (int64)
timestamps succeeds, and `ReadTimedBlock` then returns every original
payload bit-exactly after decompression — both on the same file state and
on the state obtained by reopening the file (reparsing the rewritten
header). -/
theorem c1_write_read_roundtrip (enc : Encoder) (hL : enc.LZ4Like)
    (pairs : List (Int × List Nat))
    (hmono : (pairs.map Prod.fst).Pairwise (· < ·))
    (hnz : ∀ t ∈ pairs.map Prod.fst, t ≠ 0)
    (hrange : ∀ t ∈ pairs.map Prod.fst, -(2 ^ 63) ≤ t ∧ t < 2 ^ 63)
    (hcount : pairs.length ≤ NumElements)
    (hpay : ∀ p ∈ pairs, p.2.length ≤ 2 ^ 31) :
    ∃ f, writeSeq enc pairs emptyGPFile = .ok f ∧
      ∀ p ∈ pairs, f.ReadTimedBlock enc p.1 = .ok p.2 ∧
        (reopenGPFile f).ReadTimedBlock enc p.1 = .ok p.2 := by
  obtain ⟨hLoss, hOutLen, hExp⟩ := hL
  have hnodup : (pairs.map Prod.fst).Nodup :=
    List.Pairwise.imp (fun h => ne_of_lt h) hmono
  obtain ⟨f, hws, hg⟩ := writeSeq_good enc pairs [] emptyGPFile
    (goodFile_empty enc) (by simpa using hnz) (by simpa using hnodup)
    (by simpa using hcount)
  rw [List.nil_append] at hg
  have hreadone : ∀ p ∈ pairs, f.ReadTimedBlock enc p.1 = .ok p.2 := by
    intro p hp
    exact readTimedBlock_good enc hLoss pairs f hg hnz hnodup p.1 p.2 (by simpa using hp)
  have hreopen : reopenGPFile f = f := by
    obtain ⟨hle, hts_eq, hbs_eq, hls_eq, hfd_eq⟩ := hg
    have hlen_ts : f.timestamps.length = NumElements := by
      rw [hts_eq]
      simp only [List.length_append, List.length_map, List.length_replicate]
      omega
    have hlen_bs : f.blocks.length = NumElements := by
      rw [hbs_eq]
      simp only [List.length_append, List.length_replicate, flowOffsets_length,
        List.length_map]
      omega
    have hlen_ls : f.lengths.length = NumElements := by
      rw [hls_eq]
      simp only [List.length_append, List.length_map, List.length_replicate]
      omega
    have hrange_ts : Int64Range f.timestamps := by
      rw [hts_eq]
      intro v hv
      rcases List.mem_append.mp hv with h | h
      · exact hrange v h
      · have : v = 0 := List.eq_of_mem_replicate h
        subst this
        norm_num
    have hrange_ls : Int64Range f.lengths := by
      rw [hls_eq]
      intro v hv
      rcases List.mem_append.mp hv with h | h
      · obtain ⟨p, hp, rfl⟩ := List.mem_map.mp h
        have := hpay p hp
        constructor
        · have := Int.natCast_nonneg p.2.length
          omega
        · have hc : ((p.2.length : Nat) : Int) ≤ ((2 ^ 31 : Nat) : Int) := by
            exact_mod_cast this
          omega
      · have : v = 0 := List.eq_of_mem_replicate h
        subst this
        norm_num
    have hrange_bs : Int64Range f.blocks := by
      rw [hbs_eq]
      intro v hv
      rcases List.mem_append.mp hv with h | h
      · have hb := flowOffsets_bounds enc (pairs.map Prod.snd)
          ((BufSize : Int) * 3) v h
        have he := endOffset_le enc hExp (pairs.map Prod.snd)
          ((BufSize : Int) * 3) (by
            intro x hx
            obtain ⟨p, hp, rfl⟩ := List.mem_map.mp hx
            exact hpay p hp)
        have hlen2 : ((pairs.map Prod.snd).length : Int) ≤ (NumElements : Int) := by
          rw [List.length_map]
          exact_mod_cast hcount
        have hnum : (NumElements : Int) = 512 := by norm_num [NumElements, BufSize]
        have hbuf : ((BufSize : Nat) : Int) = 4096 := by norm_num [BufSize]
        constructor
        · have h1 := hb.1
          omega
        · have h1 := hb.2
          have h2 := he
          omega
      · have : v = 0 := List.eq_of_mem_replicate h
        subst this
        norm_num
    exact reopenGPFile_eq f hlen_bs hlen_ts hlen_ls hrange_bs hrange_ts hrange_ls
  exact ⟨f, hws, fun p hp => ⟨hreadone p hp, by rw [hreopen]; exact hreadone p hp⟩⟩

/-- C1 witness: two concrete writes under timestamps 1000 < 2000 with the
identity codec, then reading both back on the same and the reopened file. -/
theorem c1_write_read_roundtrip_witness :
    idCodec.LZ4Like ∧
    (([((1000 : Int), [1, 2]), (2000, [3, 4, 5])].map Prod.fst).Pairwise (· < ·)) ∧
    (∃ f, writeSeq idCodec [((1000 : Int), [1, 2]), (2000, [3, 4, 5])]
        emptyGPFile = .ok f ∧
      ∀ p ∈ [((1000 : Int), [1, 2]), (2000, [3, 4, 5])],
        f.ReadTimedBlock idCodec p.1 = .ok p.2 ∧
        (reopenGPFile f).ReadTimedBlock idCodec p.1 = .ok p.2) :=
  ⟨idCodec_LZ4Like, by decide,
    c1_write_read_roundtrip idCodec idCodec_LZ4Like
      [((1000 : Int), [1, 2]), (2000, [3, 4, 5])] (by decide) (by decide)
      (by decide) (by decide) (by decide)⟩

/-! ## Claim C5 -/

/-- A `GPFile` with 511 of its 512 slots occupied. -/
def almostFullGPFile : GPFile :=
  { blocks := (List.range 511).map (fun i => ((12288 + i + 1 : Nat) : Int)) ++ [0]
    timestamps := (List.range 511).map (fun i => ((i + 1 : Nat) : Int)) ++ [0]
    lengths := List.replicate 511 1 ++ [0]
    fileData := List.replicate 511 1 }

set_option maxRecDepth 8000 in
/-- C5 counterexample: on a file with 511 used slots and a fresh timestamp,
`WriteTimedBlock` succeeds, but `BlocksUsed` afterwards does not increase
to 512 — it fails (the `(-1, error)` return, modelled `none`). -/
theorem c5_counterexample :
    almostFullGPFile.BlocksUsed = some 511 ∧
    (5000 : Int) ∉ almostFullGPFile.timestamps ∧
    (match almostFullGPFile.WriteTimedBlock idCodec 5000 [7] with
      | .ok f' => f'.BlocksUsed
      | .error _ => some 999) = none := by decide

/-- C5 (amended): on a well-formed file (the used slots form a nonzero
prefix of the header) and for a nonzero timestamp, `WriteTimedBlock` fails
with the duplicate error when the timestamp is present, fails with the
file-full error when all 512 slots are used, and otherwise succeeds,
filling the lowest free slot with the new end offset, the timestamp and
the payload length; the number of used slots grows by one, reported by
`BlocksUsed` — except when the write fills the last slot, in which case
`BlocksUsed` afterwards fails instead of returning 512. -/
theorem c5_write_outcomes (enc : Encoder) (f : GPFile) (ts : Int) (d : List Nat)
    (tsu bsu lsu : List Int) (n : Nat)
    (hts : ts ≠ 0) (hn : n ≤ NumElements)
    (htsu : tsu.length = n) (hbsu : bsu.length = n) (hlsu : lsu.length = n)
    (hnz : ∀ t ∈ tsu, t ≠ 0)
    (hfts : f.timestamps = tsu ++ List.replicate (NumElements - n) 0)
    (hfbs : f.blocks = bsu ++ List.replicate (NumElements - n) 0)
    (hfls : f.lengths = lsu ++ List.replicate (NumElements - n) 0) :
    (ts ∈ tsu → f.WriteTimedBlock enc ts d = .error .duplicateTimestamp) ∧
    (ts ∉ tsu → n = NumElements →
      f.WriteTimedBlock enc ts d = .error .fileFull) ∧
    (ts ∉ tsu → n < NumElements →
      ∃ f', f.WriteTimedBlock enc ts d = .ok f' ∧
        f'.timestamps.getD n 0 = ts ∧
        f'.lengths.getD n 0 = ((d.length : Nat) : Int) ∧
        f'.blocks.getD n 0 =
          (if n = 0 then (BufSize : Int) * 3 else f.blocks.getD (n - 1) 0) +
            ((enc.Compress d).length : Int) ∧
        f.BlocksUsed = some n ∧
        (n + 1 < NumElements → f'.BlocksUsed = some (n + 1)) ∧
        (n + 1 = NumElements → f'.BlocksUsed = none)) := by
  have hscan := scanSlots_spec ts hts tsu (NumElements - n) hnz
  refine ⟨fun hmem => ?_, fun hmem hfull => ?_, fun hmem hfree => ?_⟩
  · unfold GPFile.WriteTimedBlock
    rw [hfts, hscan, if_pos hmem]
  · unfold GPFile.WriteTimedBlock
    rw [hfts, hscan, if_neg hmem, if_neg (by omega)]
  · have hk : 0 < NumElements - n := by omega
    unfold GPFile.WriteTimedBlock
    rw [hfts, hscan, if_neg hmem, if_pos hk, htsu]
    simp only
    set v : Int := (if n = 0 then (BufSize : Int) * 3
      else f.blocks.getD (n - 1) 0) + ((enc.Compress d).length : Int) with hv
    have hsetT := set_boundary tsu (NumElements - n) (0 : Int) ts hk
    rw [htsu] at hsetT
    have hsetB := set_boundary bsu (NumElements - n) (0 : Int) v hk
    rw [hbsu] at hsetB
    have hsetL := set_boundary lsu (NumElements - n) (0 : Int)
      ((d.length : Nat) : Int) hk
    rw [hlsu] at hsetL
    have e1 : tsu ++ ts :: List.replicate (NumElements - n - 1) 0 =
        (tsu ++ [ts]) ++ List.replicate (NumElements - n - 1) 0 := by simp
    have e2 : bsu ++ v :: List.replicate (NumElements - n - 1) 0 =
        (bsu ++ [v]) ++ List.replicate (NumElements - n - 1) 0 := by simp
    have e3 : lsu ++ ((d.length : Nat) : Int) ::
        List.replicate (NumElements - n - 1) 0 =
        (lsu ++ [((d.length : Nat) : Int)]) ++
        List.replicate (NumElements - n - 1) 0 := by simp
    have hnz' : ∀ t ∈ tsu ++ [ts], t ≠ 0 := by
      intro t ht
      rcases List.mem_append.mp ht with h | h
      · exact hnz t h
      · rw [List.mem_singleton.mp h]; exact hts
    refine ⟨_, rfl, ?_, ?_, ?_, ?_, ?_, ?_⟩
    · show ((tsu ++ List.replicate (NumElements - n) 0).set n ts).getD n 0 = ts
      rw [hsetT, ← htsu, getD_boundary]
    · show (f.lengths.set n ((d.length : Nat) : Int)).getD n 0 = _
      rw [hfls, hsetL, ← hlsu, getD_boundary]
    · show (f.blocks.set n v).getD n 0 = v
      rw [hfbs, hsetB, ← hbsu, getD_boundary]
    · unfold GPFile.BlocksUsed
      rw [hfts, hfbs, hfls,
        blocksUsedGo_spec tsu bsu lsu (NumElements - n) 0 (by omega) (by omega) hnz,
        if_pos hk, htsu]
      simp
    · intro hlt
      unfold GPFile.BlocksUsed
      simp only
      rw [hfbs, hfls, hsetT, hsetB, hsetL, e1, e2, e3,
        blocksUsedGo_spec (tsu ++ [ts]) _ _ (NumElements - n - 1) 0
          (by simp; omega) (by simp; omega) hnz', if_pos (by omega)]
      simp only [List.length_append, List.length_singleton, htsu, Nat.zero_add]
    · intro heq
      unfold GPFile.BlocksUsed
      simp only
      rw [hfbs, hfls, hsetT, hsetB, hsetL, e1, e2, e3,
        blocksUsedGo_spec (tsu ++ [ts]) _ _ (NumElements - n - 1) 0
          (by simp; omega) (by simp; omega) hnz', if_neg (by omega)]

/-- C5 witness: writing timestamp 1000 to a fresh file succeeds, fills
slot 0, and `BlocksUsed` goes from 0 to 1. -/
theorem c5_write_outcomes_witness :
    (1000 : Int) ≠ 0 ∧
    (∃ f', emptyGPFile.WriteTimedBlock idCodec 1000 [1, 2] = .ok f' ∧
      f'.timestamps.getD 0 0 = 1000 ∧
      f'.lengths.getD 0 0 = (((2 : Nat) : Nat) : Int) ∧
      f'.blocks.getD 0 0 =
        (if (0 : Nat) = 0 then (BufSize : Int) * 3
          else emptyGPFile.blocks.getD (0 - 1) 0) +
          ((idCodec.Compress [1, 2]).length : Int) ∧
      emptyGPFile.BlocksUsed = some 0 ∧
      (0 + 1 < NumElements → f'.BlocksUsed = some (0 + 1)) ∧
      (0 + 1 = NumElements → f'.BlocksUsed = none)) :=
  ⟨by decide,
    (c5_write_outcomes idCodec emptyGPFile 1000 [1, 2] [] [] [] 0 (by decide)
      (Nat.zero_le _) rfl rfl rfl (by simp) rfl rfl rfl).2.2 (by simp)
      (by decide)⟩

/-! ## Claim C4 -/

/-- A `GPFile` whose header declares 5 compressed bytes for block 0 but
whose data region holds only 3 (e.g. a truncated file): the decompressed
size can still equal the declared uncompressed length. -/
def truncatedGPFile : GPFile :=
  { blocks := ((12293 : Int)) :: List.replicate 511 0
    timestamps := (7 : Int) :: List.replicate 511 0
    lengths := (3 : Int) :: List.replicate 511 0
    fileData := [1, 2, 3] }

/-- A well-formed `GPFile` holding one block of three bytes under the
identity codec. -/
def oneBlockGPFile : GPFile :=
  { blocks := ((12291 : Int)) :: List.replicate 511 0
    timestamps := (7 : Int) :: List.replicate 511 0
    lengths := (3 : Int) :: List.replicate 511 0
    fileData := [9, 8, 7] }

/-- C4 counterexample: `ReadBlock` fails with the short-read error on a
used block although the decompressed buffer has exactly the declared
uncompressed length — the check compares the number of compressed bytes
read against the expected compressed block length, not the decompressed
size against `lengths[i]`. -/
theorem c4_counterexample :
    truncatedGPFile.ReadBlock idCodec 0 = .error .shortRead ∧
    ((idCodec.Decompress (truncatedGPFile.fileData.drop
        (truncatedGPFile.seekPos 0 - (BufSize : Int) * 3).toNat)
      (truncatedGPFile.readLen 0).toNat
      (truncatedGPFile.lengths.getD 0 0).toNat).2).length =
      (truncatedGPFile.lengths.getD 0 0).toNat :=
  ⟨rfl, rfl⟩

/-- C4 (amended): on a used block, `ReadBlock` fails with the short-read
error iff the number of bytes read for decompression differs from the
expected compressed block length `blocks[i] − prevOffset`; on success it
returns the decompression buffer, which has exactly the declared
uncompressed length `lengths[i]`. -/
theorem c4_readBlock_shortRead (enc : Encoder) (f : GPFile) (i : Nat)
    (hOut : ∀ s a b, ((enc.Decompress s a b).2).length = b)
    (hused : ¬ (f.timestamps.getD i 0 = 0 ∧ f.blocks.getD i 0 = 0 ∧
      f.lengths.getD i 0 = 0)) :
    (f.ReadBlock enc i = .error .shortRead ↔
      ((enc.Decompress (f.fileData.drop (f.seekPos i - (BufSize : Int) * 3).toNat)
        (f.readLen i).toNat (f.lengths.getD i 0).toNat).1 : Int) ≠ f.readLen i) ∧
    (∀ out, f.ReadBlock enc i = .ok out →
      out.length = (f.lengths.getD i 0).toNat) := by
  unfold GPFile.ReadBlock
  rw [if_neg hused]
  by_cases hc : ((enc.Decompress (f.fileData.drop
      (f.seekPos i - (BufSize : Int) * 3).toNat) (f.readLen i).toNat
      (f.lengths.getD i 0).toNat).1 : Int) ≠ f.readLen i
  · rw [if_pos hc]
    refine ⟨⟨fun _ => hc, fun _ => rfl⟩, fun out hout => ?_⟩
    cases hout
  · rw [if_neg hc]
    refine ⟨⟨fun h => ?_, fun h => absurd h hc⟩, fun out hout => ?_⟩
    · cases h
    · cases hout
      exact hOut _ _ _

/-- C4 witness: a well-formed one-block file under the identity codec
reads back without the short-read error, with a buffer of the declared
length. -/
theorem c4_readBlock_shortRead_witness :
    (¬ (oneBlockGPFile.timestamps.getD 0 0 = 0 ∧
        oneBlockGPFile.blocks.getD 0 0 = 0 ∧
        oneBlockGPFile.lengths.getD 0 0 = 0)) ∧
    ((GPFile.ReadBlock idCodec oneBlockGPFile 0 = .error .shortRead ↔
      ((idCodec.Decompress (oneBlockGPFile.fileData.drop
          (GPFile.seekPos oneBlockGPFile 0 - (BufSize : Int) * 3).toNat)
        (GPFile.readLen oneBlockGPFile 0).toNat
        (oneBlockGPFile.lengths.getD 0 0).toNat).1 : Int) ≠
        GPFile.readLen oneBlockGPFile 0) ∧
    (∀ out, GPFile.ReadBlock idCodec oneBlockGPFile 0 = .ok out →
      out.length = (oneBlockGPFile.lengths.getD 0 0).toNat)) :=
  ⟨by decide, c4_readBlock_shortRead idCodec oneBlockGPFile 0
    (fun s a b => padTo_length b (s.take a)) (by decide)⟩
